import Mathlib

/-!
Verification development for the Casus chat template (Cloudflare worker
`src/index.ts` given as `src/unnamed/part_000`, and the browser client
`src/public/chat.js`).

Strings are modelled as `List Char` (one entry per Unicode scalar value);
JavaScript numbers are modelled as exact integers (`Nat`/`Int`) — every
number manipulated by this program is a small integer, 32-bit unsigned
random draws are taken modulo `2 ^ 32` explicitly.  The byte stream of a
`text/event-stream` body is modelled at character granularity (the client
decodes bytes with a streaming `TextDecoder`, so a chunk boundary inside a
UTF-8 sequence is invisible at this level).  `crypto.getRandomValues` is
modelled by an explicit list of pending 32-bit draws that is threaded
through the dice roller; an empty list models a source that never yields
a value (marked `exhausted`, a modelling artifact that the real API never
produces).
-/

/-- JavaScript whitespace as recognised by `String.prototype.trim` /
`trimStart` and by `\s` in regular expressions: the WhiteSpace and
LineTerminator code points of the ECMAScript grammar (ASCII whitespace,
NBSP, ZWNBSP, the Unicode space separators U+1680 / U+2000-200A / U+202F /
U+205F / U+3000, and the line and paragraph separators U+2028 / U+2029). -/
def isJsWs (c : Char) : Bool :=
  c = ' ' || c = '\t' || c = '\n' || c = '\r' || c = '\x0b' || c = '\x0c' ||
  c = ' ' || c = '﻿' || c = '\u1680' ||
  ('\u2000' ≤ c && c ≤ '\u200a') || c = '\u2028' || c = '\u2029' ||
  c = '\u202f' || c = '\u205f' || c = '\u3000'

/-- Model of `String.prototype.trimStart`. -/
def jsTrimStart (s : List Char) : List Char := s.dropWhile isJsWs

/-- Model of trimming trailing whitespace. -/
def jsTrimEnd (s : List Char) : List Char := (s.reverse.dropWhile isJsWs).reverse

/-- Model of `String.prototype.trim`. -/
def jsTrim (s : List Char) : List Char := jsTrimEnd (jsTrimStart s)

/-- Model of `String.prototype.toLowerCase` (ASCII range; every character
this program compares case-insensitively is ASCII). -/
def lowerAll (s : List Char) : List Char := s.map Char.toLower

/-- Model of `String.prototype.split("\n")`. -/
def splitLines : List Char → List (List Char)
  | [] => [[]]
  | c :: rest =>
    if c = '\n' then [] :: splitLines rest
    else
      match splitLines rest with
      | [] => [[c]]
      | l :: ls => (c :: l) :: ls

/-- Model of `Array.prototype.join("\n")`. -/
def joinNL (ls : List (List Char)) : List Char := List.intercalate ['\n'] ls

/-- Model of `String.prototype.includes` (substring containment). -/
def containsSub (needle hay : List Char) : Bool :=
  hay.tails.any (fun s => needle.isPrefixOf s)

/-! ## Client incremental SSE decoder (`consumeSseEvents`, chat.js 217–236) -/

/-- Model of `buffer.replace(/\r/g, "")`: the per-chunk normalization
removes every carriage return from the buffered text. -/
def stripCr (s : List Char) : List Char := s.filter (fun c => c ≠ '\r')

/-- Model of `normalized.indexOf("\n\n")` together with the two `slice`
calls: returns the part before the first blank-line boundary and the part
after it, or `none` when no boundary exists. -/
def findBoundary : List Char → Option (List Char × List Char)
  | [] => none
  | c :: cs =>
    if c = '\n' ∧ cs.head? = some '\n' then some ([], cs.tail)
    else (findBoundary cs).map (fun p => (c :: p.1, p.2))

/-- Model of the `line.startsWith("data:")` filter and
`line.slice("data:".length).trimStart()` payload extraction. -/
def dataLinePayload (line : List Char) : Option (List Char) :=
  if ("data:".data).isPrefixOf line then some (jsTrimStart (line.drop 5)) else none

/-- Payload of one raw event given as its list of lines: the `data:` lines'
remainders joined with newlines, `none` when the event has no `data:` line
(the decoder `continue`s over such events). -/
def eventPayloadOfLines (lines : List (List Char)) : Option (List Char) :=
  let dataLines := lines.filterMap dataLinePayload
  if dataLines = [] then none else some (joinNL dataLines)

/-- Payload of one raw event (the text before a blank-line boundary). -/
def eventPayload (raw : List Char) : Option (List Char) :=
  eventPayloadOfLines (splitLines raw)

/-- Fuelled form of the event-consuming loop.  The fuel only bounds the
number of iterations; `consumeLoop` supplies fuel equal to the input
length while every iteration consumes at least two characters, so the
fuel can never run out (`consumeLoopF_fuel` below). -/
def consumeLoopF : Nat → List Char → List (List Char) × List Char
  | 0, s => ([], s)
  | f + 1, s =>
    match findBoundary s with
    | none => ([], s)
    | some (raw, rest) =>
      let r := consumeLoopF f rest
      match eventPayload raw with
      | none => r
      | some p => (p :: r.1, r.2)

/-- The `while` loop of `consumeSseEvents`: repeatedly split off the text
before the first `"\n\n"`, extract its payload, and keep the remainder as
the carry-over buffer. -/
def consumeLoop (s : List Char) : List (List Char) × List Char :=
  consumeLoopF s.length s

/-- Model of `consumeSseEvents(buffer)` (chat.js 217–236): normalize the
buffer by deleting carriage returns, then repeatedly consume complete
events up to each blank-line boundary.  Returns the extracted payloads in
order and the remaining (already normalized) carry-over buffer. -/
def consumeSseEvents (buffer : List Char) : List (List Char) × List Char :=
  consumeLoop (stripCr buffer)

/-! ## JSON (platform `JSON.stringify` / `JSON.parse`, as used by the
encoder `sseTextResponse` and the client payload loop) -/

/-- Parsed JSON values.  Numbers keep their source characters: no payload
handled by the claims contains a number, so no float arithmetic is
modelled. -/
inductive Json where
  | null
  | bool (b : Bool)
  | num (raw : List Char)
  | str (s : List Char)
  | arr (elems : List Json)
  | obj (fields : List (List Char × Json))
deriving Repr

/-- JSON insignificant whitespace. -/
def isJsonWs (c : Char) : Bool := c = ' ' || c = '\t' || c = '\n' || c = '\r'

/-- Skip JSON insignificant whitespace. -/
def skipJsonWs (s : List Char) : List Char := s.dropWhile isJsonWs

/-- Value of one hexadecimal digit. -/
def parseHexDigit (c : Char) : Option Nat :=
  if '0' ≤ c ∧ c ≤ '9' then some (c.toNat - '0'.toNat)
  else if 'a' ≤ c ∧ c ≤ 'f' then some (c.toNat - 'a'.toNat + 10)
  else if 'A' ≤ c ∧ c ≤ 'F' then some (c.toNat - 'A'.toNat + 10)
  else none

/-- The single-character JSON string escapes. -/
def simpleEscape (e : Char) : Option Char :=
  if e = '"' then some '"'
  else if e = '\\' then some '\\'
  else if e = '/' then some '/'
  else if e = 'b' then some '\x08'
  else if e = 'f' then some '\x0c'
  else if e = 'n' then some '\n'
  else if e = 'r' then some '\r'
  else if e = 't' then some '\t'
  else none

/-- Parse the body of a JSON string literal, after its opening quote, up
to and including its closing quote.  Unescaped control characters are
rejected, as `JSON.parse` rejects them. -/
def parseStringBody : List Char → Option (List Char × List Char)
  | [] => none
  | c :: rest =>
    if c = '"' then some ([], rest)
    else if c = '\\' then
      match rest with
      | 'u' :: h1 :: h2 :: h3 :: h4 :: rest4 =>
        match parseHexDigit h1, parseHexDigit h2, parseHexDigit h3, parseHexDigit h4 with
        | some a, some b, some c2, some d =>
          (parseStringBody rest4).map
            (fun p => (Char.ofNat (((a * 16 + b) * 16 + c2) * 16 + d) :: p.1, p.2))
        | _, _, _, _ => none
      | e :: rest2 =>
        match simpleEscape e with
        | some ch => (parseStringBody rest2).map (fun p => (ch :: p.1, p.2))
        | none => none
      | [] => none
    else if c.toNat < 32 then none
    else (parseStringBody rest).map (fun p => (c :: p.1, p.2))

/-- Longest run of decimal digits at the front. -/
def takeDigitRun (s : List Char) : List Char × List Char :=
  (s.takeWhile Char.isDigit, s.dropWhile Char.isDigit)

/-- Parse a JSON number, keeping its raw characters. -/
def parseNumberRaw (s : List Char) : Option (List Char × List Char) :=
  let signAndRest : List Char × List Char :=
    match s with
    | '-' :: r => (['-'], r)
    | _ => ([], s)
  let (ip, r1) := takeDigitRun signAndRest.2
  if ip = [] then none
  else if 1 < ip.length ∧ ip.headD ' ' = '0' then none
  else
    let fracAndRest : Option (List Char) × List Char :=
      match r1 with
      | '.' :: rf =>
        let (ds, rr) := takeDigitRun rf
        (if ds = [] then none else some ('.' :: ds), rr)
      | _ => (some [], r1)
    match fracAndRest.1 with
    | none => none
    | some fpart =>
      let expAndRest : Option (List Char) × List Char :=
        match fracAndRest.2 with
        | e :: restE =>
          if e = 'e' ∨ e = 'E' then
            let signedRest : List Char × List Char :=
              match restE with
              | c :: rr => if c = '+' ∨ c = '-' then ([c], rr) else ([], restE)
              | [] => ([], restE)
            let (ds, rr) := takeDigitRun signedRest.2
            (if ds = [] then none else some (e :: (signedRest.1 ++ ds)), rr)
          else (some [], fracAndRest.2)
        | [] => (some [], fracAndRest.2)
      match expAndRest.1 with
      | none => none
      | some epart => some (signAndRest.1 ++ ip ++ fpart ++ epart, expAndRest.2)

mutual

/-- Recursive-descent JSON value parser.  The fuel argument only bounds
the nesting depth; `parseJson` passes more fuel than the input length, so
fuel can never run out on an accepted input. -/
def parseValue : Nat → List Char → Option (Json × List Char)
  | 0, _ => none
  | fuel + 1, s =>
    match skipJsonWs s with
    | [] => none
    | c :: r =>
      if c = '"' then
        (parseStringBody r).map (fun p => (Json.str p.1, p.2))
      else if c = '{' then
        match skipJsonWs r with
        | [] => parseMembers fuel [] []
        | c2 :: r2 =>
          if c2 = '}' then some (Json.obj [], r2) else parseMembers fuel (c2 :: r2) []
      else if c = '[' then
        match skipJsonWs r with
        | [] => parseElements fuel [] []
        | c2 :: r2 =>
          if c2 = ']' then some (Json.arr [], r2) else parseElements fuel (c2 :: r2) []
      else if ("true".data).isPrefixOf (c :: r) then some (Json.bool true, (c :: r).drop 4)
      else if ("false".data).isPrefixOf (c :: r) then some (Json.bool false, (c :: r).drop 5)
      else if ("null".data).isPrefixOf (c :: r) then some (Json.null, (c :: r).drop 4)
      else (parseNumberRaw (c :: r)).map (fun p => (Json.num p.1, p.2))

/-- Parse the members of a JSON object, after its opening brace (for a
non-empty member list). -/
def parseMembers : Nat → List Char → List (List Char × Json) → Option (Json × List Char)
  | 0, _, _ => none
  | fuel + 1, s, acc =>
    match skipJsonWs s with
    | [] => none
    | c :: r =>
      if c = '"' then
        match parseStringBody r with
        | none => none
        | some (key, r2) =>
          match skipJsonWs r2 with
          | [] => none
          | c3 :: r3 =>
            if c3 = ':' then
              match parseValue fuel r3 with
              | none => none
              | some (v, r4) =>
                match skipJsonWs r4 with
                | [] => none
                | c5 :: r5 =>
                  if c5 = ',' then parseMembers fuel r5 (acc ++ [(key, v)])
                  else if c5 = '}' then some (Json.obj (acc ++ [(key, v)]), r5)
                  else none
            else none
      else none

/-- Parse the elements of a JSON array, after its opening bracket (for a
non-empty element list). -/
def parseElements : Nat → List Char → List Json → Option (Json × List Char)
  | 0, _, _ => none
  | fuel + 1, s, acc =>
    match parseValue fuel s with
    | none => none
    | some (v, r) =>
      match skipJsonWs r with
      | [] => none
      | c2 :: r2 =>
        if c2 = ',' then parseElements fuel r2 (acc ++ [v])
        else if c2 = ']' then some (Json.arr (acc ++ [v]), r2)
        else none

end

/-- Model of `JSON.parse`: parse one value and require only whitespace
after it. -/
def parseJson (s : List Char) : Option Json :=
  match parseValue (s.length + 1) s with
  | some (j, rest) => if skipJsonWs rest = [] then some j else none
  | none => none

/-- Lower-case hexadecimal digit, as `JSON.stringify` emits. -/
def hexDigitChar (n : Nat) : Char :=
  if n < 10 then Char.ofNat ('0'.toNat + n) else Char.ofNat ('a'.toNat + n - 10)

/-- Model of the `JSON.stringify` quoting of one character. -/
def jsonEscapeChar (c : Char) : List Char :=
  if c = '"' then ['\\', '"']
  else if c = '\\' then ['\\', '\\']
  else if c = '\x08' then ['\\', 'b']
  else if c = '\t' then ['\\', 't']
  else if c = '\n' then ['\\', 'n']
  else if c = '\x0c' then ['\\', 'f']
  else if c = '\r' then ['\\', 'r']
  else if c.toNat < 32 then
    ['\\', 'u', '0', '0', hexDigitChar (c.toNat / 16), hexDigitChar (c.toNat % 16)]
  else [c]

/-- Model of `JSON.stringify` on a string value. -/
def quoteJsonString (s : List Char) : List Char :=
  '"' :: (s.flatMap jsonEscapeChar ++ ['"'])

/-- Characters of `JSON.stringify({ response: text })`. -/
def stringifyResponseObj (text : List Char) : List Char :=
  '{' :: (quoteJsonString ("response".data) ++ ':' :: (quoteJsonString text ++ ['}']))

/-- Characters of the SSE body produced by the server encoder
`sseTextResponse(text)` (index.ts 250–269): one `data:` event carrying
the JSON object, then the `[DONE]` sentinel event. -/
def sseTextResponse (text : List Char) : List Char :=
  ("data: ".data) ++ stringifyResponseObj text ++ ("\n\n".data) ++ ("data: [DONE]\n\n".data)

/-- Last-entry lookup of an object field (later duplicate keys overwrite
earlier ones in `JSON.parse`). -/
def jsonLookup (fields : List (List Char × Json)) (key : List Char) : Option Json :=
  (fields.reverse.find? (fun f => f.1 == key)).map (fun f => f.2)

/-- Whether the digits of a JSON number literal are all zero (its value
is falsy in JavaScript exactly then). -/
def jsonNumIsZero (raw : List Char) : Bool :=
  (raw.takeWhile (fun c => c ≠ 'e' ∧ c ≠ 'E')).all (fun c => ¬ c.isDigit ∨ c = '0')

/-- JavaScript truthiness of a parsed JSON value. -/
def jsonTruthy : Json → Bool
  | .null => false
  | .bool b => b
  | .num raw => ! jsonNumIsZero raw
  | .str s => ! s.isEmpty
  | .arr _ => true
  | .obj _ => true

mutual

/-- JavaScript `String(v)` coercion of a parsed JSON value (only ever
applied to a truthy non-string `delta.content`; unreachable for the
payload shapes the claims exercise). -/
def jsToStringCoerce : Json → List Char
  | .null => ("null".data)
  | .bool b => if b then ("true".data) else ("false".data)
  | .num raw => raw
  | .str s => s
  | .arr elems => jsToStringElems elems
  | .obj _ => ("[object Object]".data)

/-- `Array.prototype.toString`: elements joined with commas. -/
def jsToStringElems : List Json → List Char
  | [] => []
  | [j] => jsArrayElemString j
  | j :: rest => jsArrayElemString j ++ ',' :: jsToStringElems rest

/-- One array element under `join`: `null` renders as the empty string. -/
def jsArrayElemString : Json → List Char
  | .null => []
  | j => jsToStringCoerce j

end

/-- The client's handling of one non-sentinel SSE payload (chat.js
122–140 and 155–173): parse it as JSON and take `response` when it is a
non-empty string, otherwise `choices?.[0]?.delta?.content` when truthy.
The duck-typed `choices?.[0]` indexes both a JSON array (element 0) and a
JSON object (key `"0"`, since JS coerces the index); on any other value
the optional chain yields `undefined`.  A parse failure — including the
`TypeError` of reading a property of a parsed `null` — is caught and
contributes nothing. -/
def extractContent (data : List Char) : List Char :=
  match parseJson data with
  | none => []
  | some Json.null => []
  | some j =>
    let fromResponse : Option (List Char) :=
      match j with
      | Json.obj fields =>
        match jsonLookup fields ("response".data) with
        | some (Json.str s) => if 0 < s.length then some s else none
        | _ => none
      | _ => none
    match fromResponse with
    | some s => s
    | none =>
      match j with
      | Json.obj fields =>
        let choice0 : Option Json :=
          match jsonLookup fields ("choices".data) with
          | some (Json.arr (c0 :: _)) => some c0
          | some (Json.obj cfields) => jsonLookup cfields ("0".data)
          | _ => none
        match choice0 with
        | some (Json.obj cf) =>
          match jsonLookup cf ("delta".data) with
          | some (Json.obj df) =>
            match jsonLookup df ("content".data) with
            | some v => if jsonTruthy v then jsToStringCoerce v else []
            | none => []
          | _ => []
        | _ => []
      | _ => []

/-! ## Client read loop (`sendMessage`, chat.js 111–178) -/

/-- The `for (const data of parsed.events)` loop body over one batch of
extracted payloads: stop at the `[DONE]` sentinel (reporting it was
seen), otherwise append each payload's extracted content to the running
response text. -/
def processEvents : List (List Char) → List Char → List Char × Bool
  | [], acc => (acc, false)
  | e :: rest, acc =>
    if e = ("[DONE]".data) then (acc, true)
    else
      let content := extractContent e
      processEvents rest (if content = [] then acc else acc ++ content)

/-- The `while (true)` read loop: each chunk is appended to the carry
buffer and decoded; on the sentinel the loop breaks at once.  When the
reader reports end of stream, the remaining buffer is flushed through the
decoder with a forced `"\n\n"` closure. -/
def clientLoop : List (List Char) → List Char → List Char → List Char
  | [], buffer, acc =>
    (processEvents (consumeSseEvents (buffer ++ ("\n\n".data))).1 acc).1
  | chunk :: rest, buffer, acc =>
    let parsed := consumeSseEvents (buffer ++ chunk)
    let pe := processEvents parsed.1 acc
    if pe.2 then pe.1 else clientLoop rest parsed.2 pe.1

/-- The accumulated response text after the client consumes the given
sequence of chunks (initial buffer and response text empty). -/
def clientRun (chunks : List (List Char)) : List Char := clientLoop chunks [] []

/-- One-shot summary of the read loop on the whole stream: used to show
the loop's result does not depend on how the stream is chunked. -/
def runWhole (s : List Char) (acc : List Char) : List Char :=
  let parsed := consumeSseEvents s
  let pe := processEvents parsed.1 acc
  if pe.2 then pe.1
  else (processEvents (consumeSseEvents (parsed.2 ++ ("\n\n".data))).1 pe.1).1

/-! ## Dice roller (`randIntInclusive`, `rollDiceCommand`, index.ts 158–248) -/

/-- Two to the 32nd: the size of the `Uint32Array` draw space. -/
def uint32Mod : Nat := 4294967296

/-- The literal `0xffffffff` from `randIntInclusive`. -/
def maxUint32 : Nat := 4294967295

/-- The rejection threshold `maxUint32 - (maxUint32 % range)`. -/
def acceptLimit (range : Nat) : Nat := maxUint32 - maxUint32 % range

/-- Result of one random draw: a value plus the unconsumed draws, the
thrown `Invalid random range` error, or exhaustion of the finite draw
list (a modelling artifact — `crypto.getRandomValues` always refills). -/
inductive RandResult where
  | ok (v : Int) (rest : List Nat)
  | err
  | exhausted
deriving DecidableEq, Repr

/-- The `while (true)` rejection-sampling loop of `randIntInclusive`:
take 32-bit draws until one falls below the accept threshold. -/
def rejectionLoop (lo : Int) (range : Nat) : List Nat → RandResult
  | [] => .exhausted
  | x :: rest =>
    let xv := x % uint32Mod
    if xv < acceptLimit range then .ok (lo + ((xv % range : Nat) : Int)) rest
    else rejectionLoop lo range rest

/-- Model of `randIntInclusive(min, max)` (index.ts 234–248).  Both
arguments are integers at every call site, so `Math.ceil`/`Math.floor`
are the identity; `throw new Error("Invalid random range")` is modelled
by `RandResult.err`. -/
def randIntInclusive (lo hi : Int) (draws : List Nat) : RandResult :=
  if hi < lo then .err
  else rejectionLoop lo ((hi - lo + 1).toNat) draws

/-- Result of the `for` loop drawing `n` dice. -/
inductive RollsResult where
  | ok (vals : List Int) (rest : List Nat)
  | err
  | exhausted
deriving DecidableEq, Repr

/-- The `for (let i = 0; i < n; i++) rolls.push(randIntInclusive(1, faces))`
loop of the normal roll path. -/
def rollN (n : Nat) (faces : Int) (draws : List Nat) : RollsResult :=
  match n with
  | 0 => .ok [] draws
  | m + 1 =>
    match randIntInclusive 1 faces draws with
    | .ok v rest =>
      match rollN m faces rest with
      | .ok vs rest2 => .ok (v :: vs) rest2
      | .err => .err
      | .exhausted => .exhausted
    | .err => .err
    | .exhausted => .exhausted

/-- Splitting on runs of whitespace, as `split(/\s+/)` behaves on the
already-trimmed string it is applied to (no empty tokens). -/
def splitWsAux : List Char → List Char → List (List Char)
  | [], acc => if acc = [] then [] else [acc.reverse]
  | c :: rest, acc =>
    if isJsWs c then
      if acc = [] then splitWsAux rest [] else acc.reverse :: splitWsAux rest []
    else splitWsAux rest (c :: acc)

/-- Model of `rest.split(/\s+/)` for the trimmed `rest`. -/
def splitWs (s : List Char) : List (List Char) := splitWsAux s []

/-- Model of the regex match `expr.match(/^(\d*)d(\d+)([+-]\d+)?$/i)`:
returns the digit characters of the count group, the faces group, and the
optional signed modifier group. -/
def parseDiceExpr (s : List Char) :
    Option (List Char × List Char × Option (Char × List Char)) :=
  let (ds1, r1) := takeDigitRun s
  match r1 with
  | d :: r2 =>
    if d = 'd' ∨ d = 'D' then
      let (ds2, r3) := takeDigitRun r2
      if ds2 = [] then none
      else
        match r3 with
        | [] => some (ds1, ds2, none)
        | sgn :: r4 =>
          if sgn = '+' ∨ sgn = '-' then
            let (ds3, r5) := takeDigitRun r4
            if ds3 ≠ [] ∧ r5 = [] then some (ds1, ds2, some (sgn, ds3))
            else none
          else none
    else none
  | [] => none

/-- Value of a string of decimal digits (model of `Number` on the digit
strings the dice grammar produces; such values are exact integers). -/
def digitsToNat (s : List Char) : Nat :=
  s.foldl (fun acc c => acc * 10 + (c.toNat - '0'.toNat)) 0

/-- The dice count: `m[1] ? Number(m[1]) : 1`. -/
def rollCountOf (ds1 : List Char) : Nat := if ds1 = [] then 1 else digitsToNat ds1

/-- The modifier: `m[3] ? Number(m[3]) : 0`. -/
def rollModOf (dsm : Option (Char × List Char)) : Int :=
  match dsm with
  | none => 0
  | some (sgn, ds) =>
    if sgn = '-' then -(digitsToNat ds : Int) else (digitsToNat ds : Int)

/-- JavaScript regex word characters (`\w`). -/
def isWordChar (c : Char) : Bool :=
  ('a' ≤ c && c ≤ 'z') || ('A' ≤ c && c ≤ 'Z') || ('0' ≤ c && c ≤ '9') || c = '_'

/-- Whether a word boundary follows (end of string or a non-word char). -/
def boundaryAfter (s : List Char) : Bool :=
  match s with
  | [] => true
  | c :: _ => ! isWordChar c

/-- Scan for a whole-word occurrence, tracking whether the previous
character was a word character. -/
def containsWordAux (w : List Char) : List Char → Bool → Bool
  | [], _ => false
  | c :: rest, prevW =>
    (!prevW && w.isPrefixOf (c :: rest) && boundaryAfter ((c :: rest).drop w.length))
      || containsWordAux w rest (isWordChar c)

/-- Model of `/\bword\b/.test(s)` for a pattern made of word characters
(here `adv` and `dis`). -/
def containsWord (w s : List Char) : Bool := containsWordAux w s false

/-- Model of `input.replace(/^\/roll/i, "")`. -/
def stripRollCmd (s : List Char) : List Char :=
  if lowerAll (s.take 5) = ("/roll".data) then s.drop 5 else s

/-- The usage message returned for an empty roll expression. -/
def usageMsg : List Char :=
  ("Utilisation: `/roll NdM+K` (ex: `/roll 2d6+1`, `/roll d20`, `/roll 1d20 adv`).".data)

/-- The format-error message for an expression the grammar rejects. -/
def formatErrMsg : List Char :=
  ("Format invalide. Exemple: `/roll 2d6+1` ou `/roll d20`.".data)

/-- The range-error message for a dice count outside 1–50. -/
def countRangeMsg : List Char := ("Nombre de dés hors limite (1–50).".data)

/-- The range-error message for a face count outside 2–1000. -/
def facesRangeMsg : List Char := ("Nombre de faces hors limite (2–1000).".data)

/-- The unsupported-combination message for `adv`/`dis` on a spec other
than `1d20`. -/
def advUnsupportedMsg : List Char :=
  ("Le mode `adv`/`dis` est supporté uniquement pour `/roll 1d20 adv` ou `/roll 1d20 dis`.".data)

/-- The message of the `Number.isFinite` guard (index.ts 193–195). -/
def invalidExprMsg : List Char := ("Expression de dé invalide.".data)

/-- The smallest non-negative integer that ECMAScript string→Number
conversion rounds to `Infinity`: an exactly-parsed integer value below
`2 ^ 1024 - 2 ^ 970` rounds to a finite double, a value at or above it
overflows (round-to-nearest against `Number.MAX_VALUE = 2 ^ 1024 -
2 ^ 971`).  `Number.isFinite` on a parsed digit group is therefore
`digitsToNat ds < jsOverflow`.  (Written as the decimal literal so that
kernel evaluation needs no large exponentiation; `jsOverflow_eq` below
states the closed form.) -/
def jsOverflow : Nat :=
  179769313486231580793728971405303415079934132710037826936173778980444968292764750946649017977587207096330286416692887910946555547851940402630657488671505820681908902000708383676273854845817711531764475730270069855571366959622842914819860834936475292719074168444365510704342711559699508093042880177904174497792

/-- Decimal rendering of a natural number (JS template interpolation). -/
def natChars (n : Nat) : List Char := (Nat.repr n).data

/-- Decimal rendering of an integer (JS template interpolation). -/
def intChars (i : Int) : List Char := (Int.repr i).data

/-- The `modStr` fragment: empty for 0, `+K` for positive, `-K` for
negative. -/
def modSuffix (mod : Int) : List Char :=
  if mod = 0 then [] else if 0 < mod then '+' :: intChars mod else intChars mod

/-- The ` (±K)` suffix appended to the `Jets:` line when the modifier is
non-zero. -/
def jetsSuffix (mod : Int) : List Char :=
  if mod ≠ 0 then (" (".data) ++ modSuffix mod ++ [')'] else []

/-- Sum of the rolled values (`rolls.reduce((acc, v) => acc + v, 0)`). -/
def sumInts (l : List Int) : Int := l.foldl (fun a v => a + v) 0

/-- The three-line reply of a normal roll. -/
def formatNormalReply (n faces : Nat) (mod : Int) (rolls : List Int) : List Char :=
  ("🎲 /roll ".data) ++ natChars n ++ 'd' :: (natChars faces ++ modSuffix mod)
    ++ '\n' :: (("Jets: ".data) ++ List.intercalate (", ".data) (rolls.map intChars)
      ++ jetsSuffix mod)
    ++ '\n' :: (("Total: ".data) ++ intChars (sumInts rolls + mod))

/-- The three-line reply of an advantage/disadvantage roll. -/
def formatAdvReply (wantAdv : Bool) (a b kept mod : Int) : List Char :=
  ("🎲 /roll 1d20 ".data) ++ (if wantAdv then ("adv".data) else ("dis".data))
    ++ modSuffix mod
    ++ '\n' :: (("Jets: ".data) ++ intChars a ++ (", ".data) ++ intChars b
      ++ (" → gardé: ".data) ++ intChars kept ++ jetsSuffix mod)
    ++ '\n' :: (("Total: ".data) ++ intChars (kept + mod))

/-- Outcome of `rollDiceCommand`: a reply string, a propagated exception,
or draw-list exhaustion (modelling artifact). -/
inductive RollOutcome where
  | reply (msg : List Char)
  | err
  | exhausted
deriving DecidableEq, Repr

/-- Model of `rollDiceCommand(input)` (index.ts 173–232), including the
`!Number.isFinite(n) || !Number.isFinite(faces) || !Number.isFinite(mod)`
guard (index.ts 193–195), modelled as the exact parsed value reaching
`jsOverflow`.  Finite values are kept as exact integers: this is the
engine's own value below `2 ^ 53`, while a larger finite value is rounded
by the engine.  Branch selection is unaffected by that rounding (rounding
an integer above 50 or 1000 never brings it to or below the bound, and
values within the bounds are below `2 ^ 53`), so the model diverges from
the program only in the rendered reply of an executed roll whose modifier
lies in `[2 ^ 53, jsOverflow)`; the reply-exactness theorems therefore
bound the modifier by `2 ^ 52`, within which every arithmetic step and
rendering below is exact. -/
def rollDiceCommand (input : List Char) (draws : List Nat) : RollOutcome :=
  let rest := jsTrim (stripRollCmd input)
  if rest = [] then .reply usageMsg
  else
    let tokens := splitWs rest
    let mode := lowerAll (List.intercalate [' '] (tokens.drop 1))
    match parseDiceExpr (tokens.headD []) with
    | none => .reply formatErrMsg
    | some (ds1, ds2, dsm) =>
      let n := rollCountOf ds1
      let faces := digitsToNat ds2
      let md := rollModOf dsm
      if jsOverflow ≤ n ∨ jsOverflow ≤ faces ∨ jsOverflow ≤ md.natAbs then
        .reply invalidExprMsg
      else if n < 1 ∨ 50 < n then .reply countRangeMsg
      else if faces < 2 ∨ 1000 < faces then .reply facesRangeMsg
      else
        let wantAdv := containsWord ("adv".data) mode
        let wantDis := containsWord ("dis".data) mode
        if (wantAdv || wantDis) && !(n == 1 && faces == 20) then .reply advUnsupportedMsg
        else if wantAdv || wantDis then
          match randIntInclusive 1 20 draws with
          | .ok a rest1 =>
            match randIntInclusive 1 20 rest1 with
            | .ok b _ =>
              let kept := if wantAdv then Max.max a b else Min.min a b
              .reply (formatAdvReply wantAdv a b kept md)
            | .err => .err
            | .exhausted => .exhausted
          | .err => .err
          | .exhausted => .exhausted
        else
          match rollN n (faces : Int) draws with
          | .ok rolls _ => .reply (formatNormalReply n faces md rolls)
          | .err => .err
          | .exhausted => .exhausted

/-- The `/help` reply. -/
def helpMsg : List Char :=
  joinNL [("Commandes Casus :".data),
    ("- /roll 2d6+1  (ex: /roll d20, /roll 1d20 adv, /roll 1d20 dis)".data),
    ("- /help".data)]

/-- Model of `handleCommand(raw)` (index.ts 158–171): `none` is the
`null` return (not a command). -/
def handleCommand (raw : List Char) (draws : List Nat) : Option RollOutcome :=
  let input := jsTrim raw
  if lowerAll input = ("/help".data) then some (.reply helpMsg)
  else if ("/roll".data).isPrefixOf (lowerAll input) then some (rollDiceCommand input draws)
  else none

/-! ## Chat request handling (`handleChatRequest`, index.ts 60–135) -/

/-- A chat message: role (`system` / `user` / `assistant` on the wire)
and content. -/
structure ChatMessage where
  role : List Char
  content : List Char
deriving DecidableEq, Repr

/-- The base Casus persona text (index.ts 17–23). -/
def SYSTEM_PROMPT : List Char :=
  joinNL
    [("Tu es Casus, un assistant de jeu de rôle (JdR) en français.".data),
     ("Ton but: aider à créer des aventures, PNJ, intrigues, ambiances, règles maison, scènes, et à maîtriser des parties.".data),
     ("Style: clair, vivant, concret, orienté action; propose des options; pose 1–3 questions quand une info manque.".data),
     ("Ne révèle pas d'infos non demandées. Évite les pavés: utilise des listes courtes et des titres.".data),
     ("Sécurité: pas de contenu illégal; si un sujet est sensible, recentre vers une alternative sûre.".data)]

/-- The message `unshift`ed when the persona is missing. -/
def baseSystemMessage : ChatMessage := ⟨("system".data), SYSTEM_PROMPT⟩

/-- The marker phrase used by the duplicate check. -/
def casusMarker : List Char := ("Tu es Casus".data)

/-- The optional runtime profile of the request body. -/
structure CasusProfile where
  mode : Option (List Char)
  univers : Option (List Char)
  style : Option (List Char)
deriving DecidableEq, Repr

/-- The fixed line for mode `mj`. -/
def modeMjLine : List Char :=
  ("Mode: MJ (aide à maîtriser, préparer, improviser).".data)

/-- The fixed line for mode `joueur`. -/
def modeJoueurLine : List Char :=
  ("Mode: Joueur (aide à incarner, proposer des actions, optimiser sans spoiler).".data)

/-- Model of `buildCasusProfileSystemMessage(casus)` (index.ts 137–156). -/
def buildCasusProfileSystemMessage (casus : Option CasusProfile) : Option ChatMessage :=
  match casus with
  | none => none
  | some c =>
    let mode := c.mode.map jsTrim
    let univers := c.univers.map jsTrim
    let style := c.style.map jsTrim
    let lines : List (List Char) :=
      (if mode = some ("mj".data) then [modeMjLine] else [])
      ++ (if mode = some ("joueur".data) then [modeJoueurLine] else [])
      ++ (match univers with
          | some u => if u ≠ [] then [("Univers/ton: ".data) ++ u] else []
          | none => [])
      ++ (match style with
          | some st => if st ≠ [] then [("Contraintes de style: ".data) ++ st] else []
          | none => [])
    if lines = [] then none
    else some ⟨("system".data), ("Contexte de partie:\n".data) ++ joinNL lines⟩

/-- Model of the duplicate check `messages.some(msg => msg.role ===
"system" && msg.content.includes("Tu es Casus"))`. -/
def hasCasusSystem (messages : List ChatMessage) : Bool :=
  messages.any (fun m => m.role == ("system".data) && containsSub casusMarker m.content)

/-- Model of the persona/profile phase of `handleChatRequest` (index.ts
81–99): prepend the base persona when missing, then splice the profile
message at `min(1, firstNonSystemIndex)` (index 1 when every message has
role `system`, since `findIndex` returns -1 then). -/
def composeMessages (messages : List ChatMessage) (casus : Option CasusProfile) :
    List ChatMessage :=
  let m1 := if hasCasusSystem messages then messages else baseSystemMessage :: messages
  match buildCasusProfileSystemMessage casus with
  | none => m1
  | some profile =>
    let fi : Int :=
      match m1.findIdx? (fun m => !(m.role == ("system".data))) with
      | none => -1
      | some i => (i : Int)
    let insertAt : Int := Min.min 1 fi
    let idx : Int := if insertAt = -1 then 1 else insertAt
    List.insertIdx idx.toNat profile m1

/-- Model of `[...messages].reverse().find(m => m.role === "user")`. -/
def lastUserMessage (messages : List ChatMessage) : Option ChatMessage :=
  messages.reverse.find? (fun m => m.role == ("user".data))

/-- The `commandResponse` computed by `handleChatRequest` (index.ts
75–76): the command reply for the most recent user message, if any. -/
def commandResponseOf (messages : List ChatMessage) (draws : List Nat) :
    Option RollOutcome :=
  match lastUserMessage messages with
  | none => none
  | some m => handleCommand m.content draws

/-- Whether `handleChatRequest` answers locally through `sseTextResponse`
(index.ts 77–79): the command response must be a truthy — hence
non-empty — string.  The `err`/`exhausted` outcomes cannot reach this
point (proved below); they are mapped to `false`. -/
def chatIntercepts (messages : List ChatMessage) (draws : List Nat) : Bool :=
  match commandResponseOf messages draws with
  | some (.reply s) => !s.isEmpty
  | _ => false

/-- The command predicate of `handleCommand`, on a message's raw content:
trimmed text equal to `/help` case-insensitively, or starting with
`/roll` case-insensitively. -/
def isCommandContent (c : List Char) : Bool :=
  lowerAll (jsTrim c) == ("/help".data) || ("/roll".data).isPrefixOf (lowerAll (jsTrim c))

/-! ## Auxiliary specification-side definitions -/

/-- Transformation stated by the specification for the decoder's
normalization: replace each `\r\n` pair by `\n` and leave every other
character — in particular a lone `\r` — unchanged.  (The code instead
deletes every `\r`; see the C8 theorems.) -/
def replaceCrLf : List Char → List Char
  | [] => []
  | [c] => [c]
  | c :: d :: rest =>
    if c = '\r' ∧ d = '\n' then '\n' :: replaceCrLf rest
    else c :: replaceCrLf (d :: rest)

/-- The profile lines demanded by the specification: one line per
provided non-empty field, in the fixed order mode, univers, style. -/
def profileLinesSpec (c : CasusProfile) : List (List Char) :=
  (match c.mode.map jsTrim with
   | some md =>
     if md = ("mj".data) then [modeMjLine]
     else if md = ("joueur".data) then [modeJoueurLine]
     else []
   | none => [])
  ++ (match c.univers.map jsTrim with
      | some u => if u = [] then [] else [("Univers/ton: ".data) ++ u]
      | none => [])
  ++ (match c.style.map jsTrim with
      | some st => if st = [] then [] else [("Contraintes de style: ".data) ++ st]
      | none => [])

/-- Example request for the placement counterexample: a user message
followed by a system message that already carries the Casus marker. -/
def ceUserMsg : ChatMessage := ⟨("user".data), ("x".data)⟩

/-- The marker-carrying system message of the counterexample. -/
def ceMarkerMsg : ChatMessage := ⟨("system".data), ("Tu es Casus".data)⟩

/-- The profile sent along with the counterexample request. -/
def ceCasus : Option CasusProfile := some ⟨some ("mj".data), none, none⟩

/-- The profile message the composer builds for `ceCasus`. -/
def ceProfileMsg : ChatMessage :=
  ⟨("system".data), ("Contexte de partie:\n".data) ++ modeMjLine⟩

/-- A digit group long enough for `Number` to overflow to `Infinity`:
309 nines, value `10 ^ 309 - 1 ≥ jsOverflow`.  Used by the overflow
counterexamples. -/
def ceHugeDigits : List Char := List.replicate 309 '9'

/-! ## Lemmas about the incremental SSE decoder -/

theorem findBoundary_length_lt (s raw rest : List Char)
    (h : findBoundary s = some (raw, rest)) : rest.length < s.length := by
  induction s generalizing raw rest with
  | nil => simp [findBoundary] at h
  | cons c cs ih =>
    simp only [findBoundary] at h
    split at h
    · rename_i hc
      cases h
      cases cs with
      | nil => simp at hc
      | cons d ds =>
        simp
        omega
    · cases hfb : findBoundary cs with
      | none => rw [hfb] at h; simp at h
      | some q =>
        rw [hfb] at h
        simp at h
        obtain ⟨h1, h2⟩ := h
        subst h2
        have := ih q.1 q.2 (by rw [hfb])
        simp only [List.length_cons]
        omega

theorem findBoundary_suffix (s raw rest : List Char)
    (h : findBoundary s = some (raw, rest)) : rest.IsSuffix s := by
  induction s generalizing raw rest with
  | nil => simp [findBoundary] at h
  | cons c cs ih =>
    simp only [findBoundary] at h
    split at h
    · cases h
      exact (List.tail_suffix cs).trans (List.suffix_cons c cs)
    · cases hfb : findBoundary cs with
      | none => rw [hfb] at h; simp at h
      | some q =>
        rw [hfb] at h
        simp at h
        obtain ⟨h1, h2⟩ := h
        subst h2
        exact (ih q.1 q.2 (by rw [hfb])).trans (List.suffix_cons c cs)

theorem consumeLoopF_fuel (f : Nat) : ∀ (s : List Char), s.length ≤ f →
    consumeLoopF f s = consumeLoopF s.length s := by
  induction f using Nat.strong_induction_on with
  | _ f ih =>
    intro s hs
    match f, s with
    | 0, s =>
      have : s = [] := List.eq_nil_of_length_eq_zero (Nat.le_zero.mp hs)
      subst this; rfl
    | f + 1, [] => rfl
    | f + 1, c :: cs =>
      show consumeLoopF (f + 1) (c :: cs) = consumeLoopF (cs.length + 1) (c :: cs)
      simp only [consumeLoopF]
      cases hfb : findBoundary (c :: cs) with
      | none => rfl
      | some pr =>
        obtain ⟨raw, rest⟩ := pr
        have hlt := findBoundary_length_lt _ _ _ hfb
        have hcc : (c :: cs).length = cs.length + 1 := by simp
        have h1 : consumeLoopF f rest = consumeLoopF rest.length rest :=
          ih f (by omega) rest (by omega)
        have h2 : consumeLoopF cs.length rest = consumeLoopF rest.length rest :=
          ih cs.length (by omega) rest (by omega)
        dsimp only
        rw [h1, h2]

theorem consumeLoop_eq (s : List Char) :
    consumeLoop s =
      match findBoundary s with
      | none => ([], s)
      | some (raw, rest) =>
        match eventPayload raw with
        | none => consumeLoop rest
        | some p => (p :: (consumeLoop rest).1, (consumeLoop rest).2) := by
  unfold consumeLoop
  cases s with
  | nil => rfl
  | cons c cs =>
    show consumeLoopF (cs.length + 1) (c :: cs) = _
    simp only [consumeLoopF]
    cases hfb : findBoundary (c :: cs) with
    | none => rfl
    | some pr =>
      obtain ⟨raw, rest⟩ := pr
      have hlt := findBoundary_length_lt _ _ _ hfb
      have hcc : (c :: cs).length = cs.length + 1 := by simp
      dsimp only
      rw [consumeLoopF_fuel cs.length rest (by omega)]

theorem findBoundary_cons (c : Char) (cs : List Char) :
    findBoundary (c :: cs) =
      if c = '\n' ∧ cs.head? = some '\n' then some ([], cs.tail)
      else (findBoundary cs).map (fun p => (c :: p.1, p.2)) := rfl

theorem findBoundary_append (s b raw rest : List Char)
    (h : findBoundary s = some (raw, rest)) :
    findBoundary (s ++ b) = some (raw, rest ++ b) := by
  induction s generalizing raw rest with
  | nil => simp [findBoundary] at h
  | cons c cs ih =>
    cases cs with
    | nil => simp [findBoundary] at h
    | cons d ds =>
      simp only [List.cons_append]
      rw [findBoundary_cons]
      rw [findBoundary_cons] at h
      simp only [List.head?_cons, Option.some.injEq, List.tail_cons] at h ⊢
      by_cases hc : c = '\n' ∧ d = '\n'
      · rw [if_pos hc] at h
        cases h
        rw [if_pos hc]
      · rw [if_neg hc] at h
        rw [if_neg hc]
        cases hfb : findBoundary (d :: ds) with
        | none => rw [hfb] at h; simp at h
        | some q =>
          rw [hfb] at h
          simp at h
          obtain ⟨h1, h2⟩ := h
          subst h1
          subst h2
          have hi := ih q.1 q.2 (by rw [hfb])
          simp only [List.cons_append] at hi
          rw [hi]
          simp

theorem consumeLoop_append (s b : List Char) :
    consumeLoop (s ++ b) =
      ((consumeLoop s).1 ++ (consumeLoop ((consumeLoop s).2 ++ b)).1,
       (consumeLoop ((consumeLoop s).2 ++ b)).2) := by
  suffices H : ∀ (n : Nat) (s : List Char), s.length ≤ n →
      consumeLoop (s ++ b) =
        ((consumeLoop s).1 ++ (consumeLoop ((consumeLoop s).2 ++ b)).1,
         (consumeLoop ((consumeLoop s).2 ++ b)).2) from H s.length s le_rfl
  intro n
  induction n with
  | zero =>
    intro s hs
    have hnil : s = [] := List.eq_nil_of_length_eq_zero (Nat.le_zero.mp hs)
    subst hnil
    have h0 : consumeLoop ([] : List Char) = ([], []) := rfl
    simp [h0]
  | succ n ih =>
    intro s hs
    cases hfb : findBoundary s with
    | none =>
      have h1 : consumeLoop s = ([], s) := by
        rw [consumeLoop_eq s, hfb]
      rw [h1]
      simp
    | some pr =>
      obtain ⟨raw, rest⟩ := pr
      have hfb2 := findBoundary_append s b raw rest hfb
      have hlt := findBoundary_length_lt s raw rest hfb
      have IH := ih rest (by omega)
      cases hev : eventPayload raw with
      | none =>
        have e1 : consumeLoop (s ++ b) = consumeLoop (rest ++ b) := by
          rw [consumeLoop_eq (s ++ b), hfb2]
          dsimp only
          rw [hev]
        have e2 : consumeLoop s = consumeLoop rest := by
          rw [consumeLoop_eq s, hfb]
          dsimp only
          rw [hev]
        rw [e1, e2]
        exact IH
      | some p =>
        have e1 : consumeLoop (s ++ b) =
            (p :: (consumeLoop (rest ++ b)).1, (consumeLoop (rest ++ b)).2) := by
          rw [consumeLoop_eq (s ++ b), hfb2]
          dsimp only
          rw [hev]
        have e2 : consumeLoop s = (p :: (consumeLoop rest).1, (consumeLoop rest).2) := by
          rw [consumeLoop_eq s, hfb]
          dsimp only
          rw [hev]
        rw [e1, e2]
        rw [IH]
        simp

theorem consumeLoop_snd_suffix (s : List Char) : (consumeLoop s).2.IsSuffix s := by
  suffices H : ∀ (n : Nat) (s : List Char), s.length ≤ n →
      (consumeLoop s).2.IsSuffix s from H s.length s le_rfl
  intro n
  induction n with
  | zero =>
    intro s hs
    have hnil : s = [] := List.eq_nil_of_length_eq_zero (Nat.le_zero.mp hs)
    subst hnil
    exact List.suffix_refl []
  | succ n ih =>
    intro s hs
    cases hfb : findBoundary s with
    | none =>
      have h1 : consumeLoop s = ([], s) := by rw [consumeLoop_eq s, hfb]
      rw [h1]
    | some pr =>
      obtain ⟨raw, rest⟩ := pr
      have hlt := findBoundary_length_lt s raw rest hfb
      have hsuf := findBoundary_suffix s raw rest hfb
      have IH := ih rest (by omega)
      cases hev : eventPayload raw with
      | none =>
        have e2 : consumeLoop s = consumeLoop rest := by
          rw [consumeLoop_eq s, hfb]
          dsimp only
          rw [hev]
        rw [e2]
        exact IH.trans hsuf
      | some p =>
        have e2 : consumeLoop s = (p :: (consumeLoop rest).1, (consumeLoop rest).2) := by
          rw [consumeLoop_eq s, hfb]
          dsimp only
          rw [hev]
        rw [e2]
        exact IH.trans hsuf

theorem stripCr_noCr (s : List Char) (h : '\r' ∉ s) : stripCr s = s := by
  unfold stripCr
  rw [List.filter_eq_self]
  intro a ha
  simp only [ne_eq, decide_not, Bool.not_eq_eq_eq_not, Bool.not_true, decide_eq_false_iff_not]
  intro heq
  exact h (heq ▸ ha)

theorem stripCr_append (a b : List Char) : stripCr (a ++ b) = stripCr a ++ stripCr b := by
  simp [stripCr]

theorem noCr_consumeLoop_snd (s : List Char) (h : '\r' ∉ s) :
    '\r' ∉ (consumeLoop s).2 :=
  fun hmem => h ((consumeLoop_snd_suffix s).subset hmem)

theorem processEvents_append (e1 e2 : List (List Char)) (acc : List Char) :
    processEvents (e1 ++ e2) acc =
      if (processEvents e1 acc).2 then processEvents e1 acc
      else processEvents e2 (processEvents e1 acc).1 := by
  induction e1 generalizing acc with
  | nil => simp [processEvents]
  | cons e rest ih =>
    simp only [List.cons_append, processEvents]
    by_cases hd : e = ("[DONE]".data)
    · rw [if_pos hd, if_pos hd]
      simp
    · rw [if_neg hd, if_neg hd]
      exact ih _

theorem processEvents_done_snd (evs : List (List Char)) (acc : List Char) :
    (processEvents evs acc).2 = true ↔ ("[DONE]".data) ∈ evs := by
  induction evs generalizing acc with
  | nil => simp [processEvents]
  | cons e rest ih =>
    simp only [processEvents]
    by_cases hd : e = ("[DONE]".data)
    · subst hd
      simp
    · rw [if_neg hd]
      rw [ih]
      simp [List.mem_cons]
      intro heq
      exact absurd heq.symm hd

theorem noCr_stripCr (s : List Char) : '\r' ∉ stripCr s := by
  simp [stripCr]

theorem consumeSseEvents_append (a f : List Char) :
    consumeSseEvents (a ++ f) =
      ((consumeSseEvents a).1 ++ (consumeSseEvents ((consumeSseEvents a).2 ++ f)).1,
       (consumeSseEvents ((consumeSseEvents a).2 ++ f)).2) := by
  simp only [consumeSseEvents]
  rw [stripCr_append a f]
  rw [consumeLoop_append (stripCr a) (stripCr f)]
  have hR : '\r' ∉ (consumeLoop (stripCr a)).2 := noCr_consumeLoop_snd _ (noCr_stripCr a)
  rw [stripCr_append, stripCr_noCr _ hR]

theorem clientLoop_eq_runWhole (cs : List (List Char)) : ∀ (b acc : List Char),
    clientLoop cs b acc = runWhole (b ++ cs.flatten) acc := by
  induction cs with
  | nil =>
    intro b acc
    simp only [clientLoop, List.flatten_nil, List.append_nil, runWhole]
    rw [consumeSseEvents_append b ("\n\n".data)]
    dsimp only
    rw [processEvents_append]
    by_cases hd : (processEvents (consumeSseEvents b).1 acc).2 = true
    · rw [if_pos hd, if_pos hd]
    · rw [if_neg hd, if_neg hd]
  | cons c rest ih =>
    intro b acc
    simp only [clientLoop, List.flatten_cons, runWhole]
    rw [← List.append_assoc b c (List.flatten rest)]
    rw [consumeSseEvents_append (b ++ c) (List.flatten rest)]
    dsimp only
    rw [processEvents_append]
    by_cases hd : (processEvents (consumeSseEvents (b ++ c)).1 acc).2 = true
    · rw [if_pos hd, if_pos hd, if_pos hd]
    · rw [if_neg hd, if_neg hd]
      rw [ih ((consumeSseEvents (b ++ c)).2)]
      simp only [runWhole]

theorem hexDigitChar_ne : ∀ v : Nat, v < 16 →
    hexDigitChar v ≠ '\n' ∧ hexDigitChar v ≠ '\r' := by decide

theorem jsonEscapeChar_no_nl_cr (c : Char) :
    '\n' ∉ jsonEscapeChar c ∧ '\r' ∉ jsonEscapeChar c := by
  unfold jsonEscapeChar
  repeat' split
  all_goals try (constructor <;> decide)
  · rename_i hlt
    have hd := hexDigitChar_ne (c.toNat / 16) (by omega)
    have hm := hexDigitChar_ne (c.toNat % 16) (by omega)
    refine ⟨fun hmem => ?_, fun hmem => ?_⟩
    · simp only [List.mem_cons, List.not_mem_nil, or_false] at hmem
      rcases hmem with h | h | h | h | h | h
      · exact absurd h (by decide)
      · exact absurd h (by decide)
      · exact absurd h (by decide)
      · exact absurd h (by decide)
      · exact hd.1 h.symm
      · exact hm.1 h.symm
    · simp only [List.mem_cons, List.not_mem_nil, or_false] at hmem
      rcases hmem with h | h | h | h | h | h
      · exact absurd h (by decide)
      · exact absurd h (by decide)
      · exact absurd h (by decide)
      · exact absurd h (by decide)
      · exact hd.2 h.symm
      · exact hm.2 h.symm
  · rename_i hge
    refine ⟨fun hmem => ?_, fun hmem => ?_⟩
    · simp only [List.mem_singleton] at hmem
      rw [← hmem] at hge
      exact hge (by decide)
    · simp only [List.mem_singleton] at hmem
      rw [← hmem] at hge
      exact hge (by decide)

theorem flatMap_escape_no_nl (t : List Char) : '\n' ∉ t.flatMap jsonEscapeChar := by
  intro hmem
  rw [List.mem_flatMap] at hmem
  obtain ⟨c, _, hc⟩ := hmem
  exact (jsonEscapeChar_no_nl_cr c).1 hc

theorem flatMap_escape_no_cr (t : List Char) : '\r' ∉ t.flatMap jsonEscapeChar := by
  intro hmem
  rw [List.mem_flatMap] at hmem
  obtain ⟨c, _, hc⟩ := hmem
  exact (jsonEscapeChar_no_nl_cr c).2 hc

theorem stringify_no_nl (t : List Char) : '\n' ∉ stringifyResponseObj t := by
  intro hmem
  have h1 := flatMap_escape_no_nl t
  have h2 := flatMap_escape_no_nl ("response".data)
  simp only [stringifyResponseObj, quoteJsonString, List.mem_cons, List.mem_append,
    List.not_mem_nil, or_false] at hmem
  casesm* _ ∨ _
  all_goals rename_i h
  all_goals first
  | exact h1 h
  | exact h2 h
  | exact absurd h (by decide)

theorem stringify_no_cr (t : List Char) : '\r' ∉ stringifyResponseObj t := by
  intro hmem
  have h1 := flatMap_escape_no_cr t
  have h2 := flatMap_escape_no_cr ("response".data)
  simp only [stringifyResponseObj, quoteJsonString, List.mem_cons, List.mem_append,
    List.not_mem_nil, or_false] at hmem
  casesm* _ ∨ _
  all_goals rename_i h
  all_goals first
  | exact h1 h
  | exact h2 h
  | exact absurd h (by decide)

theorem findBoundary_line (l r : List Char) (h : '\n' ∉ l) :
    findBoundary (l ++ '\n' :: '\n' :: r) = some (l, r) := by
  induction l with
  | nil =>
    rw [List.nil_append, findBoundary_cons]
    simp
  | cons c l' ih =>
    have hc : c ≠ '\n' := fun hEq => h (hEq ▸ List.mem_cons_self c l')
    have h' : '\n' ∉ l' := fun hm => h (List.mem_cons_of_mem c hm)
    rw [List.cons_append, findBoundary_cons]
    rw [if_neg (fun hcon => hc hcon.1)]
    rw [ih h']
    simp

theorem splitLines_no_nl (l : List Char) (h : '\n' ∉ l) : splitLines l = [l] := by
  induction l with
  | nil => rfl
  | cons c l' ih =>
    have hc : c ≠ '\n' := fun hEq => h (hEq ▸ List.mem_cons_self c l')
    have h' : '\n' ∉ l' := fun hm => h (List.mem_cons_of_mem c hm)
    simp only [splitLines]
    rw [if_neg hc, ih h']

theorem joinNL_single (l : List Char) : joinNL [l] = l := by
  simp [joinNL, List.intercalate]

theorem eventPayload_data_brace (p : List Char) (h : '\n' ∉ p) :
    eventPayload (("data: ".data) ++ '{' :: p) = some ('{' :: p) := by
  have hl : '\n' ∉ ("data: ".data) ++ '{' :: p := by
    intro hmem
    rcases List.mem_append.mp hmem with h1 | h2
    · exact absurd h1 (by decide)
    · rcases List.mem_cons.mp h2 with h3 | h4
      · exact absurd h3 (by decide)
      · exact h h4
  have hdl : dataLinePayload (("data: ".data) ++ '{' :: p) = some ('{' :: p) := rfl
  unfold eventPayload
  rw [splitLines_no_nl _ hl]
  unfold eventPayloadOfLines
  rw [List.filterMap_cons, hdl]
  simp only [List.filterMap_nil]
  rw [if_neg (by simp)]
  rw [joinNL_single]

theorem eventPayload_done :
    eventPayload ("data: [DONE]".data) = some ("[DONE]".data) := by decide

theorem consumeSseEvents_enc (t : List Char) :
    consumeSseEvents (sseTextResponse t) =
      ([stringifyResponseObj t, ("[DONE]".data)], []) := by
  have hnocr : '\r' ∉ sseTextResponse t := by
    intro hmem
    unfold sseTextResponse at hmem
    rcases List.mem_append.mp hmem with h1 | h2
    · rcases List.mem_append.mp h1 with h3 | h4
      · rcases List.mem_append.mp h3 with h5 | h6
        · exact absurd h5 (by decide)
        · exact stringify_no_cr t h6
      · exact absurd h4 (by decide)
    · exact absurd h2 (by decide)
  have hlnl : '\n' ∉ ("data: ".data) ++ stringifyResponseObj t := by
    intro hmem
    rcases List.mem_append.mp hmem with h1 | h2
    · exact absurd h1 (by decide)
    · exact stringify_no_nl t h2
  have hshape : sseTextResponse t =
      (("data: ".data) ++ stringifyResponseObj t) ++
        '\n' :: '\n' :: ("data: [DONE]\n\n".data) := by
    unfold sseTextResponse
    rw [List.append_assoc (("data: ".data) ++ stringifyResponseObj t)]
    rfl
  have hnl2 : '\n' ∉ quoteJsonString ("response".data) ++ ':' :: (quoteJsonString t ++ ['}']) := by
    intro hmem
    exact stringify_no_nl t (List.mem_cons_of_mem '{' hmem)
  have hev : eventPayload (("data: ".data) ++ stringifyResponseObj t)
      = some (stringifyResponseObj t) :=
    eventPayload_data_brace
      (quoteJsonString ("response".data) ++ ':' :: (quoteJsonString t ++ ['}'])) hnl2
  have hdone : consumeLoop ("data: [DONE]\n\n".data) = ([("[DONE]".data)], []) := by decide
  unfold consumeSseEvents
  rw [stripCr_noCr _ hnocr]
  rw [hshape]
  rw [consumeLoop_eq]
  rw [findBoundary_line _ _ hlnl]
  dsimp only
  rw [hev]
  dsimp only
  rw [hdone]

theorem parseHexDigit_hexDigitChar : ∀ v : Nat, v < 16 →
    parseHexDigit (hexDigitChar v) = some v := by decide

theorem parseStringBody_escChar (c : Char) (X : List Char) :
    parseStringBody (jsonEscapeChar c ++ X) =
      (parseStringBody X).map (fun p => (c :: p.1, p.2)) := by
  unfold jsonEscapeChar
  split
  · rename_i hc
    subst hc
    rfl
  split
  · rename_i hc
    subst hc
    rfl
  split
  · rename_i hc
    subst hc
    rfl
  split
  · rename_i hc
    subst hc
    rfl
  split
  · rename_i hc
    subst hc
    rfl
  split
  · rename_i hc
    subst hc
    rfl
  split
  · rename_i hc
    subst hc
    rfl
  split
  · rename_i hlt
    show (match parseHexDigit '0', parseHexDigit '0',
        parseHexDigit (hexDigitChar (c.toNat / 16)), parseHexDigit (hexDigitChar (c.toNat % 16)) with
      | some a, some b, some c2, some d =>
        (parseStringBody X).map
          (fun p => (Char.ofNat (((a * 16 + b) * 16 + c2) * 16 + d) :: p.1, p.2))
      | _, _, _, _ => none) = (parseStringBody X).map (fun p => (c :: p.1, p.2))
    rw [parseHexDigit_hexDigitChar (c.toNat / 16) (by omega),
        parseHexDigit_hexDigitChar (c.toNat % 16) (by omega)]
    rw [(by decide : parseHexDigit '0' = some 0)]
    dsimp only
    have harith : ((0 * 16 + 0) * 16 + c.toNat / 16) * 16 + c.toNat % 16 = c.toNat := by omega
    rw [harith, Char.ofNat_toNat]
  · rename_i h1 h2 h3 h4 h5 h6 h7 h8
    show parseStringBody (c :: X) = (parseStringBody X).map (fun p => (c :: p.1, p.2))
    conv_lhs => rw [parseStringBody.eq_def]
    dsimp only
    rw [if_neg h1, if_neg h2, if_neg h8]

theorem parseStringBody_escape (t : List Char) : ∀ (rest : List Char),
    parseStringBody (t.flatMap jsonEscapeChar ++ '"' :: rest) = some (t, rest) := by
  induction t with
  | nil =>
    intro rest
    simp only [List.flatMap_nil, List.nil_append]
    rw [parseStringBody.eq_def]
    dsimp only
    rw [if_pos rfl]
  | cons c t' ih =>
    intro rest
    rw [List.flatMap_cons, List.append_assoc, parseStringBody_escChar, ih rest]
    rfl

theorem skipJsonWs_cons (c : Char) (r : List Char) (h : isJsonWs c = false) :
    skipJsonWs (c :: r) = c :: r := by
  simp [skipJsonWs, List.dropWhile_cons, h]

theorem parseValue_quote (f : Nat) (t tail : List Char) :
    parseValue (f + 1) (quoteJsonString t ++ tail) = some (Json.str t, tail) := by
  have hsh : quoteJsonString t ++ tail = '"' :: (t.flatMap jsonEscapeChar ++ '"' :: tail) := by
    unfold quoteJsonString
    simp [List.append_assoc]
  rw [hsh]
  rw [parseValue.eq_def]
  dsimp only
  rw [skipJsonWs_cons '"' _ (by decide)]
  dsimp only
  rw [if_pos rfl]
  rw [parseStringBody_escape]
  rfl

theorem parseValue_stringify (f : Nat) (t : List Char) :
    parseValue (f + 3) (stringifyResponseObj t) =
      some (Json.obj [(("response".data), Json.str t)], []) := by
  have hsh : stringifyResponseObj t =
      '{' :: ('"' :: (("response".data).flatMap jsonEscapeChar ++ '"' ::
        (':' :: (quoteJsonString t ++ ['}'])))) := by
    unfold stringifyResponseObj quoteJsonString
    simp [List.append_assoc]
  rw [hsh]
  rw [parseValue.eq_def]
  dsimp only
  rw [skipJsonWs_cons '{' _ (by decide)]
  dsimp only
  rw [if_neg (by decide : ¬('{' : Char) = '"'), if_pos (rfl : ('{' : Char) = '{')]
  rw [skipJsonWs_cons '"' _ (by decide)]
  dsimp only
  rw [parseMembers.eq_def]
  dsimp only
  rw [skipJsonWs_cons '"' _ (by decide)]
  dsimp only
  rw [parseStringBody_escape]
  dsimp only
  rw [skipJsonWs_cons ':' _ (by decide)]
  dsimp only
  rw [parseValue_quote]
  dsimp only
  rw [skipJsonWs_cons '}' _ (by decide)]
  dsimp only
  rfl

theorem parseJson_stringify (t : List Char) :
    parseJson (stringifyResponseObj t) =
      some (Json.obj [(("response".data), Json.str t)]) := by
  unfold parseJson
  have hlen : (stringifyResponseObj t).length + 1 =
      ((stringifyResponseObj t).length - 2) + 3 := by
    have : 2 ≤ (stringifyResponseObj t).length := by
      show 2 ≤ ('{' :: (quoteJsonString ("response".data) ++ ':' ::
        (quoteJsonString t ++ ['}']))).length
      simp [quoteJsonString]
    omega
  rw [hlen, parseValue_stringify]
  rfl

theorem extractContent_stringify (t : List Char) :
    extractContent (stringifyResponseObj t) = if 0 < t.length then t else [] := by
  unfold extractContent
  rw [parseJson_stringify]
  cases t with
  | nil => rfl
  | cons c t' =>
    dsimp only
    rw [show jsonLookup [(("response".data), Json.str (c :: t'))] ("response".data)
        = some (Json.str (c :: t')) from rfl]
    dsimp only
    rw [if_pos (by simp : 0 < (c :: t').length)]
    simp

theorem processEvents_enc (t acc : List Char) :
    processEvents [stringifyResponseObj t, ("[DONE]".data)] acc = (acc ++ t, true) := by
  have hne : stringifyResponseObj t ≠ ("[DONE]".data) := by
    intro h
    have h2 := congrArg (fun l => l.headD ' ') h
    have h3 : '{' = '[' := h2
    exact absurd h3 (by decide)
  simp only [processEvents]
  rw [if_neg hne]
  rw [extractContent_stringify]
  cases t with
  | nil => simp [processEvents]
  | cons c t' => simp [processEvents]

theorem runWhole_enc (t acc : List Char) :
    runWhole (sseTextResponse t) acc = acc ++ t := by
  unfold runWhole
  rw [consumeSseEvents_enc]
  dsimp only
  rw [processEvents_enc]
  simp

/-- C1: round-trip with split-invariance — for every text and every way of
partitioning the byte stream produced by the server encoder
`sseTextResponse` into chunks, the client SSE decoder together with the
payload-extraction loop reconstructs exactly that text as the accumulated
response. -/
theorem sse_roundtrip_split_invariance (text : List Char) (chunks : List (List Char))
    (h : chunks.flatten = sseTextResponse text) :
    clientRun chunks = text := by
  unfold clientRun
  rw [clientLoop_eq_runWhole chunks [] []]
  rw [List.nil_append, h, runWhole_enc]
  rfl

/-- Witness for C1: the concrete text `ok`, with the encoded stream split
into two chunks in the middle of the JSON payload. -/
theorem sse_roundtrip_split_invariance_witness :
    clientRun [("data: \x7b\"resp".data), ("onse\":\"ok\"\x7d\n\ndata: [DONE]\n\n".data)]
      = ("ok".data) :=
  sse_roundtrip_split_invariance ("ok".data) _ (by decide)

/-- C5: sentinel termination — a batch of decoded events is processed
only up to the first `[DONE]` payload (later events in the batch
contribute nothing); once a chunk's batch contains the sentinel the read
loop returns immediately, with a result independent of the remaining
chunks and of the carry-over buffer; and lines that do not start with
`data:` never contribute to any event payload. -/
theorem sse_sentinel_termination :
    (∀ (evs1 evs2 : List (List Char)) (acc : List Char), ("[DONE]".data) ∉ evs1 →
      processEvents (evs1 ++ ("[DONE]".data) :: evs2) acc =
        ((processEvents evs1 acc).1, true))
    ∧ (∀ (chunk : List Char) (restChunks restChunks' : List (List Char))
        (buffer acc : List Char),
        ("[DONE]".data) ∈ (consumeSseEvents (buffer ++ chunk)).1 →
        clientLoop (chunk :: restChunks) buffer acc =
          (processEvents (consumeSseEvents (buffer ++ chunk)).1 acc).1
        ∧ clientLoop (chunk :: restChunks) buffer acc =
          clientLoop (chunk :: restChunks') buffer acc)
    ∧ (∀ (ls1 ls2 : List (List Char)) (l : List Char),
        ("data:".data).isPrefixOf l = false →
        eventPayloadOfLines (ls1 ++ l :: ls2) = eventPayloadOfLines (ls1 ++ ls2)) := by
  refine ⟨?_, ?_, ?_⟩
  · intro evs1 evs2 acc hnot
    induction evs1 generalizing acc with
    | nil => simp [processEvents]
    | cons e rest ih =>
      have hne : e ≠ ("[DONE]".data) := fun hEq => hnot (hEq ▸ List.mem_cons_self e rest)
      have hnot' : ("[DONE]".data) ∉ rest := fun hm => hnot (List.mem_cons_of_mem e hm)
      simp only [List.cons_append, processEvents]
      rw [if_neg hne, if_neg hne]
      exact ih _ hnot'
  · intro chunk restChunks restChunks' buffer acc hmem
    have hd : (processEvents (consumeSseEvents (buffer ++ chunk)).1 acc).2 = true :=
      (processEvents_done_snd _ _).mpr hmem
    constructor
    · simp only [clientLoop]
      rw [if_pos hd]
    · simp only [clientLoop]
      rw [if_pos hd, if_pos hd]
  · intro ls1 ls2 l hnd
    have hdl : dataLinePayload l = none := by
      unfold dataLinePayload
      rw [if_neg (by simp [hnd])]
    simp [eventPayloadOfLines, List.filterMap_append, List.filterMap_cons, hdl]

/-- Witness for C5: concrete instances of the three conjuncts — events
after the sentinel in the same batch are dropped, a chunk whose batch
carries the sentinel ends the loop regardless of the following chunks,
and a non-`data:` line contributes nothing. -/
theorem sse_sentinel_termination_witness :
    (processEvents ([("x".data)] ++ ("[DONE]".data) :: [("y".data)]) [] =
      ((processEvents [("x".data)] []).1, true))
    ∧ (clientLoop [("data: [DONE]\n\ndata: LOST\n\n".data)] ("ignored\n\n".data) [] =
        (processEvents
          (consumeSseEvents (("ignored\n\n".data) ++ ("data: [DONE]\n\ndata: LOST\n\n".data))).1
          []).1
      ∧ clientLoop [("data: [DONE]\n\ndata: LOST\n\n".data)] ("ignored\n\n".data) [] =
        clientLoop [("data: [DONE]\n\ndata: LOST\n\n".data), ("more".data)] ("ignored\n\n".data) [])
    ∧ eventPayloadOfLines [("data: a".data), (": comment".data), ("data: b".data)] =
        eventPayloadOfLines [("data: a".data), ("data: b".data)] := by
  refine ⟨?_, ⟨?_, ?_⟩, ?_⟩
  · exact sse_sentinel_termination.1 [("x".data)] [("y".data)] [] (by decide)
  · exact (sse_sentinel_termination.2.1 ("data: [DONE]\n\ndata: LOST\n\n".data)
      [] [("more".data)] ("ignored\n\n".data) [] (by decide)).1
  · exact (sse_sentinel_termination.2.1 ("data: [DONE]\n\ndata: LOST\n\n".data)
      [] [("more".data)] ("ignored\n\n".data) [] (by decide)).2
  · exact sse_sentinel_termination.2.2 [("data: a".data)] [("data: b".data)]
      (": comment".data) (by decide)

theorem stripCr_replaceCrLf (s : List Char) : stripCr (replaceCrLf s) = stripCr s := by
  suffices H : ∀ (n : Nat) (s : List Char), s.length ≤ n →
      stripCr (replaceCrLf s) = stripCr s from H s.length s le_rfl
  intro n
  induction n with
  | zero =>
    intro s hs
    have hnil : s = [] := List.eq_nil_of_length_eq_zero (Nat.le_zero.mp hs)
    subst hnil
    rfl
  | succ n ih =>
    intro s hs
    match s with
    | [] => rfl
    | [c] => rfl
    | c :: d :: rest =>
      simp only [replaceCrLf]
      by_cases hcd : c = '\r' ∧ d = '\n'
      · rw [if_pos hcd]
        obtain ⟨h1, h2⟩ := hcd
        subst h1
        subst h2
        have hrec := ih rest (by simp only [List.length_cons] at hs; omega)
        simp [stripCr] at hrec ⊢
        exact hrec
      · rw [if_neg hcd]
        have hrec := ih (d :: rest) (by simp only [List.length_cons] at hs ⊢; omega)
        simp only [stripCr, List.filter_cons] at hrec ⊢
        rw [hrec]

/-- C8 counterexample: the claim says the decoder's normalization leaves
a lone carriage return (one not followed by a line feed) unchanged; the
code deletes every carriage return, so the payload `a\r b` (no space)
comes out as `ab`. -/
theorem crlf_normalization_counterexample :
    stripCr ("a\rb".data) ≠ replaceCrLf ("a\rb".data) ∧
    consumeSseEvents ("data: a\rb\n\n".data) = ([("ab".data)], []) := by
  constructor
  · decide
  · decide

/-- C8 amended: the per-chunk normalization deletes every carriage
return.  This maps each `\r\n` to `\n` exactly as the specification's
replacement does — composing the code's normalization with that
replacement changes nothing — but it also deletes a lone `\r` instead of
leaving it unchanged; the output never contains `\r`, and inputs without
`\r` pass through untouched. -/
theorem crlf_normalization_amended :
    (∀ s : List Char, stripCr (replaceCrLf s) = stripCr s)
    ∧ (∀ s : List Char, '\r' ∉ stripCr s)
    ∧ (∀ s : List Char, '\r' ∉ s → stripCr s = s) :=
  ⟨stripCr_replaceCrLf, noCr_stripCr, stripCr_noCr⟩

/-- Witness for C8 amended, at a buffer containing both a CRLF pair and a
lone CR. -/
theorem crlf_normalization_amended_witness :
    stripCr (replaceCrLf ("a\r\nb\rc".data)) = stripCr ("a\r\nb\rc".data)
    ∧ '\r' ∉ stripCr ("a\r\nb\rc".data)
    ∧ ('\r' ∉ ("abc".data) → stripCr ("abc".data) = ("abc".data)) :=
  ⟨crlf_normalization_amended.1 _, crlf_normalization_amended.2.1 _,
   fun h => crlf_normalization_amended.2.2 _ h⟩

/-! ## Lemmas about the dice roller -/

/-- The decimal literal `jsOverflow` is the overflow threshold
`2 ^ 1024 - 2 ^ 970` of round-to-nearest double conversion. -/
theorem jsOverflow_eq : jsOverflow = 2 ^ 1024 - 2 ^ 970 := by
  norm_num [jsOverflow]

theorem rejectionLoop_ne_err (lo : Int) (range : Nat) (draws : List Nat) :
    rejectionLoop lo range draws ≠ RandResult.err := by
  induction draws with
  | nil => simp [rejectionLoop]
  | cons x rest ih =>
    simp only [rejectionLoop]
    split
    · simp
    · exact ih

theorem randIntInclusive_ne_err (lo hi : Int) (draws : List Nat) (h : ¬hi < lo) :
    randIntInclusive lo hi draws ≠ RandResult.err := by
  unfold randIntInclusive
  rw [if_neg h]
  exact rejectionLoop_ne_err _ _ _

theorem rejectionLoop_ok_bounds (lo : Int) (range : Nat) (hr : 0 < range) :
    ∀ (draws : List Nat) (v : Int) (rest : List Nat),
      rejectionLoop lo range draws = RandResult.ok v rest →
      lo ≤ v ∧ v ≤ lo + range - 1 := by
  intro draws
  induction draws with
  | nil => intro v rest h; simp [rejectionLoop] at h
  | cons x rs ih =>
    intro v rest h
    simp only [rejectionLoop] at h
    split at h
    · cases h
      have hnn : (0 : Int) ≤ ((x % uint32Mod % range : Nat) : Int) := Int.natCast_nonneg _
      have hlt : x % uint32Mod % range < range := Nat.mod_lt _ hr
      have hlt2 : ((x % uint32Mod % range : Nat) : Int) < (range : Int) := by
        exact_mod_cast hlt
      omega
    · exact ih v rest h

theorem randIntInclusive_ok_bounds (lo hi : Int) (hle : lo ≤ hi) (draws : List Nat)
    (v : Int) (rest : List Nat) (h : randIntInclusive lo hi draws = RandResult.ok v rest) :
    lo ≤ v ∧ v ≤ hi := by
  unfold randIntInclusive at h
  rw [if_neg (by omega)] at h
  have hr : 0 < (hi - lo + 1).toNat := by omega
  have hb := rejectionLoop_ok_bounds lo _ hr draws v rest h
  have ht : (((hi - lo + 1).toNat : Nat) : Int) = hi - lo + 1 := Int.toNat_of_nonneg (by omega)
  omega

theorem rand_one_faces (f : Nat) (hf : 1 ≤ f) (draws : List Nat) :
    randIntInclusive 1 (f : Int) draws = rejectionLoop 1 f draws := by
  unfold randIntInclusive
  rw [if_neg (by exact_mod_cast (by omega : ¬(f : Int) < 1))]
  have ht : ((f : Int) - 1 + 1).toNat = f := by omega
  rw [ht]

theorem rejectionLoop_cons_accept (lo : Int) (range : Nat) (x : Nat) (rest : List Nat)
    (h : x % uint32Mod < acceptLimit range) :
    rejectionLoop lo range (x :: rest) =
      RandResult.ok (lo + ((x % uint32Mod % range : Nat) : Int)) rest := by
  simp [rejectionLoop, h]

theorem acceptLimit_ge (r : Nat) (h2 : 2 ≤ r) (h1000 : r ≤ 1000) :
    uint32Mod - 1000 ≤ acceptLimit r := by
  unfold acceptLimit maxUint32 uint32Mod
  have := Nat.mod_lt 4294967295 (show 0 < r by omega)
  omega

theorem rollN_ok_facts (faces : Nat) (hf : 2 ≤ faces) :
    ∀ (n : Nat) (draws : List Nat) (rolls : List Int) (rest : List Nat),
      rollN n (faces : Int) draws = RollsResult.ok rolls rest →
      rolls.length = n ∧ ∀ v ∈ rolls, 1 ≤ v ∧ v ≤ (faces : Int) := by
  intro n
  induction n with
  | zero =>
    intro draws rolls rest h
    simp only [rollN] at h
    cases h
    simp
  | succ m ih =>
    intro draws rolls rest h
    simp only [rollN] at h
    cases hr1 : randIntInclusive 1 (faces : Int) draws with
    | ok v r1 =>
      rw [hr1] at h
      dsimp only at h
      cases hr2 : rollN m (faces : Int) r1 with
      | ok vs r2 =>
        rw [hr2] at h
        dsimp only at h
        cases h
        have hb := randIntInclusive_ok_bounds 1 (faces : Int)
          (by exact_mod_cast (by omega : 1 ≤ faces)) draws v r1 hr1
        have hi := ih _ _ _ hr2
        refine ⟨by simp [hi.1], ?_⟩
        intro w hw
        rcases List.mem_cons.mp hw with h1 | h2
        · subst h1; exact hb
        · exact hi.2 w h2
      | err => rw [hr2] at h; simp at h
      | exhausted => rw [hr2] at h; simp at h
    | err => rw [hr1] at h; simp at h
    | exhausted => rw [hr1] at h; simp at h

theorem rollN_ne_err (faces : Nat) (hf : 1 ≤ faces) :
    ∀ (n : Nat) (draws : List Nat), rollN n (faces : Int) draws ≠ RollsResult.err := by
  intro n
  induction n with
  | zero => intro draws; simp [rollN]
  | succ m ih =>
    intro draws
    simp only [rollN]
    cases hr1 : randIntInclusive 1 (faces : Int) draws with
    | ok v r1 =>
      dsimp only
      cases hr2 : rollN m (faces : Int) r1 with
      | ok vs r2 => simp
      | err => exact absurd hr2 (ih r1)
      | exhausted => simp
    | err =>
      exact absurd hr1 (randIntInclusive_ne_err 1 (faces : Int) draws
        (by exact_mod_cast (by omega : ¬faces < 1)))
    | exhausted => simp

theorem rollN_ok_of_accept (faces : Nat) (h2 : 2 ≤ faces) (h1000 : faces ≤ 1000) :
    ∀ (n : Nat) (draws : List Nat), n ≤ draws.length →
      (∀ x ∈ draws, x % uint32Mod < uint32Mod - 1000) →
      ∃ rolls rest, rollN n (faces : Int) draws = RollsResult.ok rolls rest := by
  intro n
  induction n with
  | zero => intro draws _ _; exact ⟨[], draws, rfl⟩
  | succ m ih =>
    intro draws hlen hacc
    cases draws with
    | nil => simp at hlen
    | cons x rest =>
      have hx : x % uint32Mod < acceptLimit faces :=
        Nat.lt_of_lt_of_le (hacc x (List.mem_cons_self x rest)) (acceptLimit_ge faces h2 h1000)
      have hrand : randIntInclusive 1 (faces : Int) (x :: rest) =
          RandResult.ok (1 + ((x % uint32Mod % faces : Nat) : Int)) rest := by
        rw [rand_one_faces faces (by omega), rejectionLoop_cons_accept _ _ _ _ hx]
      obtain ⟨rolls, rest2, hroll⟩ := ih rest (by simp at hlen; omega)
        (fun y hy => hacc y (List.mem_cons_of_mem x hy))
      refine ⟨(1 + ((x % uint32Mod % faces : Nat) : Int)) :: rolls, rest2, ?_⟩
      simp only [rollN]
      rw [hrand]
      dsimp only
      rw [hroll]

/-- C4: no modulo bias — for every range size 2 ≤ r ≤ 1000,
`randIntInclusive(1, r)` accepts exactly the 32-bit draws below the
threshold `0xffffffff - (0xffffffff % r)`, which is an exact multiple of
`r`; an accepted draw `x` is mapped to `1 + (x mod r)`; every outcome in
`[1, r]` has exactly `limit / r` accepted preimages among the `2 ^ 32`
possible draws; and a returned value always lies in `[1, r]`. -/
theorem randIntInclusive_no_modulo_bias (r : Nat) (h2 : 2 ≤ r) (h1000 : r ≤ 1000) :
    (r ∣ acceptLimit r)
    ∧ (∀ (x : Nat) (rest : List Nat),
        randIntInclusive 1 (r : Int) (x :: rest) =
          if x % uint32Mod < acceptLimit r
          then RandResult.ok (1 + ((x % uint32Mod % r : Nat) : Int)) rest
          else randIntInclusive 1 (r : Int) rest)
    ∧ (∀ v : Nat, 1 ≤ v → v ≤ r →
        ((Finset.range uint32Mod).filter
          (fun x => x < acceptLimit r ∧ 1 + x % r = v)).card = acceptLimit r / r)
    ∧ (∀ (draws : List Nat) (v : Int) (rest : List Nat),
        randIntInclusive 1 (r : Int) draws = RandResult.ok v rest →
        1 ≤ v ∧ v ≤ (r : Int)) := by
  have hdvd : r ∣ acceptLimit r := by
    refine ⟨maxUint32 / r, ?_⟩
    unfold acceptLimit
    have := Nat.div_add_mod maxUint32 r
    omega
  have hm32 : maxUint32 = 4294967295 := rfl
  have hu32 : uint32Mod = 4294967296 := rfl
  have hLle : acceptLimit r ≤ maxUint32 := Nat.sub_le _ _
  refine ⟨hdvd, ?_, ?_, ?_⟩
  · intro x rest
    rw [rand_one_faces r (by omega), rand_one_faces r (by omega)]
    simp only [rejectionLoop]
  · intro v hv1 hvr
    have key : (Finset.range uint32Mod).filter
          (fun x => x < acceptLimit r ∧ 1 + x % r = v) =
        (Finset.range (acceptLimit r / r)).image (fun k => k * r + (v - 1)) := by
      ext x
      simp only [Finset.mem_filter, Finset.mem_range, Finset.mem_image]
      constructor
      · rintro ⟨hxu, hxL, hxv⟩
        refine ⟨x / r, Nat.div_lt_div_of_lt_of_dvd hdvd hxL, ?_⟩
        have hmod : x % r = v - 1 := by omega
        have hdm := Nat.div_add_mod x r
        have hcomm : x / r * r = r * (x / r) := Nat.mul_comm _ _
        omega
      · rintro ⟨k, hk, rfl⟩
        have hv1r : v - 1 < r := by omega
        have hxL : k * r + (v - 1) < acceptLimit r := by
          have hk1 : k + 1 ≤ acceptLimit r / r := hk
          have hmul : (k + 1) * r ≤ (acceptLimit r / r) * r := Nat.mul_le_mul_right r hk1
          have hcancel : (acceptLimit r / r) * r = acceptLimit r := Nat.div_mul_cancel hdvd
          have hsucc : (k + 1) * r = k * r + r := Nat.succ_mul k r
          omega
        refine ⟨by omega, hxL, ?_⟩
        have hmm : (k * r + (v - 1)) % r = (v - 1) % r := by
          rw [Nat.mul_comm k r]
          exact Nat.mul_add_mod r k (v - 1)
        rw [hmm, Nat.mod_eq_of_lt hv1r]
        omega
    rw [key, Finset.card_image_of_injective _ ?_, Finset.card_range]
    intro a b hab
    simp only at hab
    have : a * r = b * r := by omega
    exact Nat.eq_of_mul_eq_mul_right (by omega) this
  · intro draws v rest h
    exact randIntInclusive_ok_bounds 1 (r : Int)
      (by exact_mod_cast (by omega : 1 ≤ r)) draws v rest h

/-- Witness for C4 at range size 6: the threshold divides evenly, the
one-step acceptance equation at draw 5, the preimage count of outcome 3,
and the bounds of the value returned for draw 0. -/
theorem randIntInclusive_no_modulo_bias_witness :
    (6 ∣ acceptLimit 6)
    ∧ (randIntInclusive 1 (6 : Int) (5 :: []) =
        if 5 % uint32Mod < acceptLimit 6
        then RandResult.ok (1 + ((5 % uint32Mod % 6 : Nat) : Int)) []
        else randIntInclusive 1 (6 : Int) [])
    ∧ ((Finset.range uint32Mod).filter
        (fun x => x < acceptLimit 6 ∧ 1 + x % 6 = 3)).card = acceptLimit 6 / 6
    ∧ (1 ≤ (1 : Int) ∧ (1 : Int) ≤ (6 : Int)) :=
  ⟨(randIntInclusive_no_modulo_bias 6 (by decide) (by decide)).1,
   (randIntInclusive_no_modulo_bias 6 (by decide) (by decide)).2.1 5 [],
   (randIntInclusive_no_modulo_bias 6 (by decide) (by decide)).2.2.1 3 (by decide) (by decide),
   (randIntInclusive_no_modulo_bias 6 (by decide) (by decide)).2.2.2 [0] 1 [] (by decide)⟩

/-- C2 (amended): for every roll command parsed as `NdM+K` with count in
`[1, 50]` and faces in `[2, 1000]`, no `adv`/`dis` mode, and a modifier
below `2 ^ 52` — the regime in which the engine's double arithmetic is
exact; an overflowing modifier instead takes the `Number.isFinite` guard,
see the counterexample — given enough random draws the interpreter draws
exactly `count` values, each in `[1, faces]`, and the reply's `Total:`
line reports the sum of those values plus the modifier. -/
theorem roll_normal_command (input : List Char) (draws : List Nat)
    (ds1 ds2 : List Char) (dsm : Option (Char × List Char))
    (rolls : List Int) (restD : List Nat)
    (hrest : jsTrim (stripRollCmd input) ≠ [])
    (hparse : parseDiceExpr ((splitWs (jsTrim (stripRollCmd input))).headD []) =
      some (ds1, ds2, dsm))
    (hn1 : 1 ≤ rollCountOf ds1) (hn50 : rollCountOf ds1 ≤ 50)
    (hf2 : 2 ≤ digitsToNat ds2) (hf1000 : digitsToNat ds2 ≤ 1000)
    (hadv : containsWord ("adv".data)
      (lowerAll (List.intercalate [' ']
        ((splitWs (jsTrim (stripRollCmd input))).drop 1))) = false)
    (hdis : containsWord ("dis".data)
      (lowerAll (List.intercalate [' ']
        ((splitWs (jsTrim (stripRollCmd input))).drop 1))) = false)
    (hroll : rollN (rollCountOf ds1) ((digitsToNat ds2 : Nat) : Int) draws =
      RollsResult.ok rolls restD)
    (hmd : (rollModOf dsm).natAbs ≤ 2 ^ 52) :
    rollDiceCommand input draws =
      RollOutcome.reply (("🎲 /roll ".data) ++ natChars (rollCountOf ds1) ++ 'd' ::
        (natChars (digitsToNat ds2) ++ modSuffix (rollModOf dsm))
        ++ '\n' :: (("Jets: ".data) ++ List.intercalate (", ".data) (rolls.map intChars)
          ++ jetsSuffix (rollModOf dsm))
        ++ '\n' :: (("Total: ".data) ++ intChars (sumInts rolls + rollModOf dsm)))
    ∧ rolls.length = rollCountOf ds1
    ∧ ∀ v ∈ rolls, 1 ≤ v ∧ v ≤ ((digitsToNat ds2 : Nat) : Int) := by
  have hfacts := rollN_ok_facts (digitsToNat ds2) hf2 _ _ _ _ hroll
  refine ⟨?_, hfacts.1, hfacts.2⟩
  have hov52 : (4503599627370496 : Nat) < jsOverflow := by decide
  have hmd2 : (rollModOf dsm).natAbs ≤ 4503599627370496 := by
    calc (rollModOf dsm).natAbs ≤ 2 ^ 52 := hmd
      _ = 4503599627370496 := by norm_num
  unfold rollDiceCommand
  rw [if_neg hrest]
  dsimp only
  rw [hparse]
  dsimp only
  rw [if_neg (show ¬(jsOverflow ≤ rollCountOf ds1 ∨ jsOverflow ≤ digitsToNat ds2 ∨
      jsOverflow ≤ (rollModOf dsm).natAbs) by omega)]
  rw [if_neg (show ¬(rollCountOf ds1 < 1 ∨ 50 < rollCountOf ds1) by omega)]
  rw [if_neg (show ¬(digitsToNat ds2 < 2 ∨ 1000 < digitsToNat ds2) by omega)]
  rw [hadv, hdis]
  rw [if_neg (show ¬(((false || false) &&
    !(rollCountOf ds1 == 1 && digitsToNat ds2 == 20)) = true) by simp)]
  rw [if_neg (show ¬((false || false) = true) by simp)]
  rw [hroll]
  rfl

/-- C6 (amended): for `/roll 1d20` with `adv` or `dis` requested and a
modifier below `2 ^ 52` (the exact-double regime; an overflowing modifier
instead takes the `Number.isFinite` guard, see the counterexample), the
interpreter draws exactly two values from the stream, each in `[1, 20]`,
keeps `max` under `adv` and `min` otherwise, and reports `Total:` as the
kept value plus the modifier. -/
theorem roll_adv_dis_command (input : List Char) (draws : List Nat)
    (ds1 ds2 : List Char) (dsm : Option (Char × List Char))
    (a b : Int) (r1 r2 : List Nat)
    (hrest : jsTrim (stripRollCmd input) ≠ [])
    (hparse : parseDiceExpr ((splitWs (jsTrim (stripRollCmd input))).headD []) =
      some (ds1, ds2, dsm))
    (hn : rollCountOf ds1 = 1) (hf : digitsToNat ds2 = 20)
    (hmode : (containsWord ("adv".data)
      (lowerAll (List.intercalate [' ']
        ((splitWs (jsTrim (stripRollCmd input))).drop 1))) ||
      containsWord ("dis".data)
      (lowerAll (List.intercalate [' ']
        ((splitWs (jsTrim (stripRollCmd input))).drop 1)))) = true)
    (hr1 : randIntInclusive 1 20 draws = RandResult.ok a r1)
    (hr2 : randIntInclusive 1 20 r1 = RandResult.ok b r2)
    (hmd : (rollModOf dsm).natAbs ≤ 2 ^ 52) :
    rollDiceCommand input draws =
      RollOutcome.reply (("🎲 /roll 1d20 ".data)
        ++ (if containsWord ("adv".data)
              (lowerAll (List.intercalate [' ']
                ((splitWs (jsTrim (stripRollCmd input))).drop 1))) then ("adv".data)
            else ("dis".data))
        ++ modSuffix (rollModOf dsm)
        ++ '\n' :: (("Jets: ".data) ++ intChars a ++ (", ".data) ++ intChars b
          ++ (" → gardé: ".data)
          ++ intChars (if containsWord ("adv".data)
                (lowerAll (List.intercalate [' ']
                  ((splitWs (jsTrim (stripRollCmd input))).drop 1)))
              then Max.max a b else Min.min a b)
          ++ jetsSuffix (rollModOf dsm))
        ++ '\n' :: (("Total: ".data)
          ++ intChars ((if containsWord ("adv".data)
                (lowerAll (List.intercalate [' ']
                  ((splitWs (jsTrim (stripRollCmd input))).drop 1)))
              then Max.max a b else Min.min a b) + rollModOf dsm)))
    ∧ (1 ≤ a ∧ a ≤ 20) ∧ (1 ≤ b ∧ b ≤ 20) := by
  have hba := randIntInclusive_ok_bounds 1 20 (by omega) draws a r1 hr1
  have hbb := randIntInclusive_ok_bounds 1 20 (by omega) r1 b r2 hr2
  refine ⟨?_, hba, hbb⟩
  have hov52 : (4503599627370496 : Nat) < jsOverflow := by decide
  have hmd2 : (rollModOf dsm).natAbs ≤ 4503599627370496 := by
    calc (rollModOf dsm).natAbs ≤ 2 ^ 52 := hmd
      _ = 4503599627370496 := by norm_num
  unfold rollDiceCommand
  rw [if_neg hrest]
  dsimp only
  rw [hparse]
  dsimp only
  rw [if_neg (show ¬(jsOverflow ≤ rollCountOf ds1 ∨ jsOverflow ≤ digitsToNat ds2 ∨
      jsOverflow ≤ (rollModOf dsm).natAbs) by omega)]
  rw [if_neg (show ¬(rollCountOf ds1 < 1 ∨ 50 < rollCountOf ds1) by omega)]
  rw [if_neg (show ¬(digitsToNat ds2 < 2 ∨ 1000 < digitsToNat ds2) by omega)]
  rw [if_neg (show ¬((containsWord ("adv".data)
      (lowerAll (List.intercalate [' ']
        ((splitWs (jsTrim (stripRollCmd input))).drop 1))) ||
      containsWord ("dis".data)
      (lowerAll (List.intercalate [' ']
        ((splitWs (jsTrim (stripRollCmd input))).drop 1)))) &&
      !(rollCountOf ds1 == 1 && digitsToNat ds2 == 20)) = true by
    rw [hn, hf]
    simp)]
  rw [if_pos hmode]
  rw [hr1]
  dsimp only
  rw [hr2]
  dsimp only
  rfl

/-- Witness for C2: `/roll 2d6+1` with draws 0 and 1 yields rolls 1 and 2
and total 4. -/
theorem roll_normal_command_witness :
    rollDiceCommand ("/roll 2d6+1".data) [0, 1] =
      RollOutcome.reply ("🎲 /roll 2d6+1\nJets: 1, 2 (+1)\nTotal: 4".data)
    ∧ ([1, 2] : List Int).length = rollCountOf ("2".data)
    ∧ ∀ v ∈ ([1, 2] : List Int), 1 ≤ v ∧ v ≤ ((digitsToNat ("6".data) : Nat) : Int) := by
  have h := roll_normal_command ("/roll 2d6+1".data) [0, 1] ("2".data) ("6".data)
    (some ('+', ("1".data))) [1, 2] [] (by decide) (by decide) (by decide) (by decide)
    (by decide) (by decide) (by decide) (by decide) (by decide) (by decide)
  refine ⟨?_, h.2.1, h.2.2⟩
  rw [h.1]
  decide

/-- Witness for C6: `/roll 1d20+3 adv` with draws 4 and 19 keeps the
maximum 20 and totals 23. -/
theorem roll_adv_dis_command_witness :
    rollDiceCommand ("/roll 1d20+3 adv".data) [4, 19] =
      RollOutcome.reply ("🎲 /roll 1d20 adv+3\nJets: 5, 20 → gardé: 20 (+3)\nTotal: 23".data)
    ∧ ((1 : Int) ≤ 5 ∧ (5 : Int) ≤ 20) ∧ ((1 : Int) ≤ 20 ∧ (20 : Int) ≤ 20) := by
  have h := roll_adv_dis_command ("/roll 1d20+3 adv".data) [4, 19] ("1".data) ("20".data)
    (some ('+', ("3".data))) 5 20 [19] [] (by decide) (by decide) (by decide) (by decide)
    (by decide) (by decide) (by decide) (by decide)
  refine ⟨?_, h.2.1, h.2.2⟩
  rw [h.1]
  decide

set_option maxRecDepth 100000 in
/-- C2 counterexample: `/roll 2d6+K` with a 309-digit `K` parses with
count 2 and faces 6 inside the claimed ranges, yet the program answers
with the invalid-expression message of the `Number.isFinite` guard
(`Number(K)` overflows to `Infinity`): no dice are rolled and no total is
reported — the reply does not even start with the `🎲` report header. -/
theorem roll_normal_overflow_counterexample :
    parseDiceExpr ((splitWs (jsTrim (stripRollCmd (("/roll 2d6+".data) ++
        ceHugeDigits)))).headD []) =
      some (("2".data), ("6".data), some ('+', ceHugeDigits)) ∧
    rollCountOf ("2".data) = 2 ∧ digitsToNat ("6".data) = 6 ∧
    rollDiceCommand (("/roll 2d6+".data) ++ ceHugeDigits) [0, 1] =
      RollOutcome.reply invalidExprMsg ∧
    invalidExprMsg.headD ' ' ≠ '🎲' :=
  ⟨by decide, by decide, by decide, by decide, by decide⟩

set_option maxRecDepth 100000 in
/-- C6 counterexample: `/roll 1d20+K adv` with a 309-digit `K` is a
`1d20` spec with `adv` requested, yet the program answers with the
invalid-expression message of the `Number.isFinite` guard instead of a
kept-max roll report. -/
theorem roll_adv_overflow_counterexample :
    parseDiceExpr ((splitWs (jsTrim (stripRollCmd ((("/roll 1d20+".data) ++
        ceHugeDigits) ++ (" adv".data))))).headD []) =
      some (("1".data), ("20".data), some ('+', ceHugeDigits)) ∧
    containsWord ("adv".data) (lowerAll (List.intercalate [' ']
      ((splitWs (jsTrim (stripRollCmd ((("/roll 1d20+".data) ++
        ceHugeDigits) ++ (" adv".data))))).drop 1))) = true ∧
    rollDiceCommand ((("/roll 1d20+".data) ++ ceHugeDigits) ++ (" adv".data))
        [0, 1] =
      RollOutcome.reply invalidExprMsg ∧
    invalidExprMsg.headD ' ' ≠ '🎲' :=
  ⟨by decide, by decide, by decide, by decide⟩

theorem reply_msg_ne (A B : List Char) (hAB : A ≠ B) :
    RollOutcome.reply A ≠ RollOutcome.reply B :=
  fun h => hAB (RollOutcome.reply.inj h)

theorem emoji_head_ne (M : List Char) (h : M.headD ' ' ≠ '🎲') (s : List Char) :
    RollOutcome.reply ('🎲' :: s) ≠ RollOutcome.reply M := by
  intro hEq
  have h2 := congrArg (fun l => l.headD ' ') (RollOutcome.reply.inj hEq)
  exact h h2.symm

theorem rollDice_cases (input : List Char) (draws : List Nat) :
    (jsTrim (stripRollCmd input) = [] ∧
      rollDiceCommand input draws = RollOutcome.reply usageMsg)
    ∨ (jsTrim (stripRollCmd input) ≠ [] ∧
        parseDiceExpr ((splitWs (jsTrim (stripRollCmd input))).headD []) = none ∧
        rollDiceCommand input draws = RollOutcome.reply formatErrMsg)
    ∨ (∃ ds1 ds2 dsm,
        parseDiceExpr ((splitWs (jsTrim (stripRollCmd input))).headD []) =
          some (ds1, ds2, dsm) ∧
        ((jsOverflow ≤ rollCountOf ds1 ∨ jsOverflow ≤ digitsToNat ds2 ∨
            jsOverflow ≤ (rollModOf dsm).natAbs) ∧
            rollDiceCommand input draws = RollOutcome.reply invalidExprMsg
        ∨ (¬(jsOverflow ≤ rollCountOf ds1 ∨ jsOverflow ≤ digitsToNat ds2 ∨
              jsOverflow ≤ (rollModOf dsm).natAbs) ∧
            (rollCountOf ds1 < 1 ∨ 50 < rollCountOf ds1) ∧
            rollDiceCommand input draws = RollOutcome.reply countRangeMsg)
        ∨ (¬(jsOverflow ≤ rollCountOf ds1 ∨ jsOverflow ≤ digitsToNat ds2 ∨
              jsOverflow ≤ (rollModOf dsm).natAbs) ∧
            (1 ≤ rollCountOf ds1 ∧ rollCountOf ds1 ≤ 50) ∧
            (digitsToNat ds2 < 2 ∨ 1000 < digitsToNat ds2) ∧
            rollDiceCommand input draws = RollOutcome.reply facesRangeMsg)
        ∨ (¬(jsOverflow ≤ rollCountOf ds1 ∨ jsOverflow ≤ digitsToNat ds2 ∨
              jsOverflow ≤ (rollModOf dsm).natAbs) ∧
            (1 ≤ rollCountOf ds1 ∧ rollCountOf ds1 ≤ 50) ∧
            (2 ≤ digitsToNat ds2 ∧ digitsToNat ds2 ≤ 1000) ∧
            (containsWord ("adv".data) (lowerAll (List.intercalate [' ']
              ((splitWs (jsTrim (stripRollCmd input))).drop 1))) ||
             containsWord ("dis".data) (lowerAll (List.intercalate [' ']
              ((splitWs (jsTrim (stripRollCmd input))).drop 1)))) = true ∧
            ¬(rollCountOf ds1 = 1 ∧ digitsToNat ds2 = 20) ∧
            rollDiceCommand input draws = RollOutcome.reply advUnsupportedMsg)
        ∨ (¬(jsOverflow ≤ rollCountOf ds1 ∨ jsOverflow ≤ digitsToNat ds2 ∨
              jsOverflow ≤ (rollModOf dsm).natAbs) ∧
            (1 ≤ rollCountOf ds1 ∧ rollCountOf ds1 ≤ 50) ∧
            (2 ≤ digitsToNat ds2 ∧ digitsToNat ds2 ≤ 1000) ∧
            (containsWord ("adv".data) (lowerAll (List.intercalate [' ']
              ((splitWs (jsTrim (stripRollCmd input))).drop 1))) ||
             containsWord ("dis".data) (lowerAll (List.intercalate [' ']
              ((splitWs (jsTrim (stripRollCmd input))).drop 1)))) = true ∧
            (rollCountOf ds1 = 1 ∧ digitsToNat ds2 = 20) ∧
            ((∃ s, rollDiceCommand input draws = RollOutcome.reply ('🎲' :: s))
              ∨ rollDiceCommand input draws = RollOutcome.exhausted))
        ∨ (¬(jsOverflow ≤ rollCountOf ds1 ∨ jsOverflow ≤ digitsToNat ds2 ∨
              jsOverflow ≤ (rollModOf dsm).natAbs) ∧
            (1 ≤ rollCountOf ds1 ∧ rollCountOf ds1 ≤ 50) ∧
            (2 ≤ digitsToNat ds2 ∧ digitsToNat ds2 ≤ 1000) ∧
            (containsWord ("adv".data) (lowerAll (List.intercalate [' ']
              ((splitWs (jsTrim (stripRollCmd input))).drop 1))) ||
             containsWord ("dis".data) (lowerAll (List.intercalate [' ']
              ((splitWs (jsTrim (stripRollCmd input))).drop 1)))) = false ∧
            ((∃ s, rollDiceCommand input draws = RollOutcome.reply ('🎲' :: s))
              ∨ rollDiceCommand input draws = RollOutcome.exhausted)))) := by
  by_cases hrest : jsTrim (stripRollCmd input) = []
  · left
    refine ⟨hrest, ?_⟩
    unfold rollDiceCommand
    rw [if_pos hrest]
  · right
    cases hparse : parseDiceExpr ((splitWs (jsTrim (stripRollCmd input))).headD []) with
    | none =>
      left
      refine ⟨hrest, rfl, ?_⟩
      unfold rollDiceCommand
      rw [if_neg hrest]
      dsimp only
      rw [hparse]
    | some trip =>
      right
      obtain ⟨ds1, ds2, dsm⟩ := trip
      refine ⟨ds1, ds2, dsm, rfl, ?_⟩
      by_cases hov : jsOverflow ≤ rollCountOf ds1 ∨ jsOverflow ≤ digitsToNat ds2 ∨
          jsOverflow ≤ (rollModOf dsm).natAbs
      · left
        refine ⟨hov, ?_⟩
        unfold rollDiceCommand
        rw [if_neg hrest]
        dsimp only
        rw [hparse]
        dsimp only
        rw [if_pos hov]
      right
      by_cases hcount : rollCountOf ds1 < 1 ∨ 50 < rollCountOf ds1
      · left
        refine ⟨hov, hcount, ?_⟩
        unfold rollDiceCommand
        rw [if_neg hrest]
        dsimp only
        rw [hparse]
        dsimp only
        rw [if_neg hov]
        rw [if_pos hcount]
      · right
        by_cases hfaces : digitsToNat ds2 < 2 ∨ 1000 < digitsToNat ds2
        · left
          refine ⟨hov, ⟨by omega, by omega⟩, hfaces, ?_⟩
          unfold rollDiceCommand
          rw [if_neg hrest]
          dsimp only
          rw [hparse]
          dsimp only
          rw [if_neg hov]
          rw [if_neg hcount, if_pos hfaces]
        · right
          by_cases hmode : (containsWord ("adv".data) (lowerAll (List.intercalate [' ']
              ((splitWs (jsTrim (stripRollCmd input))).drop 1))) ||
             containsWord ("dis".data) (lowerAll (List.intercalate [' ']
              ((splitWs (jsTrim (stripRollCmd input))).drop 1)))) = true
          · by_cases h120 : rollCountOf ds1 = 1 ∧ digitsToNat ds2 = 20
            · right
              left
              refine ⟨hov, ⟨by omega, by omega⟩, ⟨by omega, by omega⟩, hmode, h120, ?_⟩
              unfold rollDiceCommand
              rw [if_neg hrest]
              dsimp only
              rw [hparse]
              dsimp only
              rw [if_neg hov]
              rw [if_neg hcount, if_neg hfaces]
              rw [if_neg (show ¬((containsWord ("adv".data) (lowerAll (List.intercalate [' ']
                  ((splitWs (jsTrim (stripRollCmd input))).drop 1))) ||
                 containsWord ("dis".data) (lowerAll (List.intercalate [' ']
                  ((splitWs (jsTrim (stripRollCmd input))).drop 1)))) &&
                 !(rollCountOf ds1 == 1 && digitsToNat ds2 == 20)) = true by
                rw [h120.1, h120.2]
                simp)]
              rw [if_pos hmode]
              cases hr1 : randIntInclusive 1 20 draws with
              | ok a r1 =>
                dsimp only
                cases hr2 : randIntInclusive 1 20 r1 with
                | ok b r2 => exact Or.inl ⟨_, rfl⟩
                | err => exact absurd hr2 (randIntInclusive_ne_err 1 20 r1 (by omega))
                | exhausted => exact Or.inr rfl
              | err => exact absurd hr1 (randIntInclusive_ne_err 1 20 draws (by omega))
              | exhausted => exact Or.inr rfl
            · left
              refine ⟨hov, ⟨by omega, by omega⟩, ⟨by omega, by omega⟩, hmode, h120, ?_⟩
              have hb : (rollCountOf ds1 == 1 && digitsToNat ds2 == 20) = false := by
                by_contra hcon
                rw [Bool.not_eq_false, Bool.and_eq_true] at hcon
                exact h120 ⟨by simpa [beq_iff_eq] using hcon.1,
                  by simpa [beq_iff_eq] using hcon.2⟩
              unfold rollDiceCommand
              rw [if_neg hrest]
              dsimp only
              rw [hparse]
              dsimp only
              rw [if_neg hov]
              rw [if_neg hcount, if_neg hfaces]
              rw [if_pos (show ((containsWord ("adv".data) (lowerAll (List.intercalate [' ']
                  ((splitWs (jsTrim (stripRollCmd input))).drop 1))) ||
                 containsWord ("dis".data) (lowerAll (List.intercalate [' ']
                  ((splitWs (jsTrim (stripRollCmd input))).drop 1)))) &&
                 !(rollCountOf ds1 == 1 && digitsToNat ds2 == 20)) = true by
                rw [hb, hmode]
                rfl)]
          · right
            right
            have hmodeF : (containsWord ("adv".data) (lowerAll (List.intercalate [' ']
                ((splitWs (jsTrim (stripRollCmd input))).drop 1))) ||
               containsWord ("dis".data) (lowerAll (List.intercalate [' ']
                ((splitWs (jsTrim (stripRollCmd input))).drop 1)))) = false := by
              cases hX : (containsWord ("adv".data) (lowerAll (List.intercalate [' ']
                ((splitWs (jsTrim (stripRollCmd input))).drop 1))) ||
               containsWord ("dis".data) (lowerAll (List.intercalate [' ']
                ((splitWs (jsTrim (stripRollCmd input))).drop 1)))) with
              | false => rfl
              | true => exact absurd hX hmode
            refine ⟨hov, ⟨by omega, by omega⟩, ⟨by omega, by omega⟩, hmodeF, ?_⟩
            unfold rollDiceCommand
            rw [if_neg hrest]
            dsimp only
            rw [hparse]
            dsimp only
            rw [if_neg hov]
            rw [if_neg hcount, if_neg hfaces]
            rw [hmodeF]
            rw [if_neg (show ¬((false &&
              !(rollCountOf ds1 == 1 && digitsToNat ds2 == 20)) = true) by simp)]
            rw [if_neg (show ¬(false = true) by simp)]
            cases hroll : rollN (rollCountOf ds1) ((digitsToNat ds2 : Nat) : Int) draws with
            | ok rolls restD =>
              dsimp only
              exact Or.inl ⟨_, rfl⟩
            | err => exact absurd hroll (rollN_ne_err (digitsToNat ds2) (by omega) _ draws)
            | exhausted => exact Or.inr rfl

theorem parse_of_empty_rest : parseDiceExpr ((splitWs ([] : List Char)).headD []) = none := rfl

/-- C7 (amended): rejection-policy totality — for every input string and
draw list, `rollDiceCommand` never propagates the `Invalid random range`
exception, and each user-facing rejection message is produced exactly in
its place in the source's checking order: the usage message exactly for
an empty expression, the format-error message exactly for a non-matching
expression, the generic invalid-expression message exactly when a parsed
group overflows `Number` to `Infinity` (the `Number.isFinite` guard,
checked before the ranges), the count range-error exactly for a finite
count outside `[1, 50]`, the faces range-error exactly for a finite
in-count expression with faces outside `[2, 1000]`, and the
unsupported-combination message exactly when `adv`/`dis` is requested on
an in-range spec other than `1d20`. -/
theorem rollDiceCommand_rejection_policy (input : List Char) (draws : List Nat) :
    rollDiceCommand input draws ≠ RollOutcome.err
    ∧ (rollDiceCommand input draws = RollOutcome.reply usageMsg ↔
        jsTrim (stripRollCmd input) = [])
    ∧ (rollDiceCommand input draws = RollOutcome.reply formatErrMsg ↔
        jsTrim (stripRollCmd input) ≠ [] ∧
        parseDiceExpr ((splitWs (jsTrim (stripRollCmd input))).headD []) = none)
    ∧ (rollDiceCommand input draws = RollOutcome.reply invalidExprMsg ↔
        ∃ ds1 ds2 dsm,
          parseDiceExpr ((splitWs (jsTrim (stripRollCmd input))).headD []) =
            some (ds1, ds2, dsm) ∧
          (jsOverflow ≤ rollCountOf ds1 ∨ jsOverflow ≤ digitsToNat ds2 ∨
            jsOverflow ≤ (rollModOf dsm).natAbs))
    ∧ (rollDiceCommand input draws = RollOutcome.reply countRangeMsg ↔
        ∃ ds1 ds2 dsm,
          parseDiceExpr ((splitWs (jsTrim (stripRollCmd input))).headD []) =
            some (ds1, ds2, dsm) ∧
          ¬(jsOverflow ≤ rollCountOf ds1 ∨ jsOverflow ≤ digitsToNat ds2 ∨
            jsOverflow ≤ (rollModOf dsm).natAbs) ∧
          (rollCountOf ds1 < 1 ∨ 50 < rollCountOf ds1))
    ∧ (rollDiceCommand input draws = RollOutcome.reply facesRangeMsg ↔
        ∃ ds1 ds2 dsm,
          parseDiceExpr ((splitWs (jsTrim (stripRollCmd input))).headD []) =
            some (ds1, ds2, dsm) ∧
          ¬(jsOverflow ≤ rollCountOf ds1 ∨ jsOverflow ≤ digitsToNat ds2 ∨
            jsOverflow ≤ (rollModOf dsm).natAbs) ∧
          (1 ≤ rollCountOf ds1 ∧ rollCountOf ds1 ≤ 50) ∧
          (digitsToNat ds2 < 2 ∨ 1000 < digitsToNat ds2))
    ∧ (rollDiceCommand input draws = RollOutcome.reply advUnsupportedMsg ↔
        ∃ ds1 ds2 dsm,
          parseDiceExpr ((splitWs (jsTrim (stripRollCmd input))).headD []) =
            some (ds1, ds2, dsm) ∧
          ¬(jsOverflow ≤ rollCountOf ds1 ∨ jsOverflow ≤ digitsToNat ds2 ∨
            jsOverflow ≤ (rollModOf dsm).natAbs) ∧
          (1 ≤ rollCountOf ds1 ∧ rollCountOf ds1 ≤ 50) ∧
          (2 ≤ digitsToNat ds2 ∧ digitsToNat ds2 ≤ 1000) ∧
          (containsWord ("adv".data) (lowerAll (List.intercalate [' ']
            ((splitWs (jsTrim (stripRollCmd input))).drop 1))) ||
           containsWord ("dis".data) (lowerAll (List.intercalate [' ']
            ((splitWs (jsTrim (stripRollCmd input))).drop 1)))) = true ∧
          ¬(rollCountOf ds1 = 1 ∧ digitsToNat ds2 = 20)) := by
  refine ⟨?_, ?_, ?_, ?_, ?_, ?_, ?_⟩
  · rcases rollDice_cases input draws with ⟨hA1, hA2⟩ | ⟨hB1, hB2, hB3⟩ |
      ⟨ds1, ds2, dsm, hp, hD0 | hD1 | hD2 | hD3 | hD4 | hD5⟩
    · rw [hA2]; simp
    · rw [hB3]; simp
    · rw [hD0.2]; simp
    · rw [hD1.2.2]; simp
    · rw [hD2.2.2.2]; simp
    · rw [hD3.2.2.2.2.2]; simp
    · rcases hD4.2.2.2.2.2 with ⟨s, hres⟩ | hres
      · rw [hres]; simp
      · rw [hres]; simp
    · rcases hD5.2.2.2.2 with ⟨s, hres⟩ | hres
      · rw [hres]; simp
      · rw [hres]; simp
  · constructor
    · intro hres
      rcases rollDice_cases input draws with ⟨hA1, hA2⟩ | ⟨hB1, hB2, hB3⟩ |
        ⟨ds1, ds2, dsm, hp, hD0 | hD1 | hD2 | hD3 | hD4 | hD5⟩
      · exact hA1
      · exact absurd (RollOutcome.reply.inj (hB3.symm.trans hres)) (by decide)
      · exact absurd (RollOutcome.reply.inj (hD0.2.symm.trans hres)) (by decide)
      · exact absurd (RollOutcome.reply.inj (hD1.2.2.symm.trans hres)) (by decide)
      · exact absurd (RollOutcome.reply.inj (hD2.2.2.2.symm.trans hres)) (by decide)
      · exact absurd (RollOutcome.reply.inj (hD3.2.2.2.2.2.symm.trans hres)) (by decide)
      · rcases hD4.2.2.2.2.2 with ⟨s, hs⟩ | hEx
        · exact absurd (hs.symm.trans hres) (emoji_head_ne usageMsg (by decide) s)
        · exact absurd (hEx.symm.trans hres) (by simp)
      · rcases hD5.2.2.2.2 with ⟨s, hs⟩ | hEx
        · exact absurd (hs.symm.trans hres) (emoji_head_ne usageMsg (by decide) s)
        · exact absurd (hEx.symm.trans hres) (by simp)
    · intro hrest
      rcases rollDice_cases input draws with ⟨hA1, hA2⟩ | ⟨hB1, hB2, hB3⟩ |
        ⟨ds1, ds2, dsm, hp, hD0 | hD1 | hD2 | hD3 | hD4 | hD5⟩
      · exact hA2
      · exact absurd hrest hB1
      all_goals
        rw [hrest, parse_of_empty_rest] at hp
        simp at hp
  · constructor
    · intro hres
      rcases rollDice_cases input draws with ⟨hA1, hA2⟩ | ⟨hB1, hB2, hB3⟩ |
        ⟨ds1, ds2, dsm, hp, hD0 | hD1 | hD2 | hD3 | hD4 | hD5⟩
      · exact absurd (RollOutcome.reply.inj (hA2.symm.trans hres)) (by decide)
      · exact ⟨hB1, hB2⟩
      · exact absurd (RollOutcome.reply.inj (hD0.2.symm.trans hres)) (by decide)
      · exact absurd (RollOutcome.reply.inj (hD1.2.2.symm.trans hres)) (by decide)
      · exact absurd (RollOutcome.reply.inj (hD2.2.2.2.symm.trans hres)) (by decide)
      · exact absurd (RollOutcome.reply.inj (hD3.2.2.2.2.2.symm.trans hres)) (by decide)
      · rcases hD4.2.2.2.2.2 with ⟨s, hs⟩ | hEx
        · exact absurd (hs.symm.trans hres) (emoji_head_ne formatErrMsg (by decide) s)
        · exact absurd (hEx.symm.trans hres) (by simp)
      · rcases hD5.2.2.2.2 with ⟨s, hs⟩ | hEx
        · exact absurd (hs.symm.trans hres) (emoji_head_ne formatErrMsg (by decide) s)
        · exact absurd (hEx.symm.trans hres) (by simp)
    · rintro ⟨hne, hpnone⟩
      rcases rollDice_cases input draws with ⟨hA1, hA2⟩ | ⟨hB1, hB2, hB3⟩ |
        ⟨ds1, ds2, dsm, hp, hD0 | hD1 | hD2 | hD3 | hD4 | hD5⟩
      · exact absurd hA1 hne
      · exact hB3
      all_goals
        rw [hpnone] at hp
        simp at hp
  · constructor
    · intro hres
      rcases rollDice_cases input draws with ⟨hA1, hA2⟩ | ⟨hB1, hB2, hB3⟩ |
        ⟨ds1, ds2, dsm, hp, hD0 | hD1 | hD2 | hD3 | hD4 | hD5⟩
      · exact absurd (RollOutcome.reply.inj (hA2.symm.trans hres)) (by decide)
      · exact absurd (RollOutcome.reply.inj (hB3.symm.trans hres)) (by decide)
      · exact ⟨ds1, ds2, dsm, hp, hD0.1⟩
      · exact absurd (RollOutcome.reply.inj (hD1.2.2.symm.trans hres)) (by decide)
      · exact absurd (RollOutcome.reply.inj (hD2.2.2.2.symm.trans hres)) (by decide)
      · exact absurd (RollOutcome.reply.inj (hD3.2.2.2.2.2.symm.trans hres)) (by decide)
      · rcases hD4.2.2.2.2.2 with ⟨s, hs⟩ | hEx
        · exact absurd (hs.symm.trans hres) (emoji_head_ne invalidExprMsg (by decide) s)
        · exact absurd (hEx.symm.trans hres) (by simp)
      · rcases hD5.2.2.2.2 with ⟨s, hs⟩ | hEx
        · exact absurd (hs.symm.trans hres) (emoji_head_ne invalidExprMsg (by decide) s)
        · exact absurd (hEx.symm.trans hres) (by simp)
    · rintro ⟨ds1, ds2, dsm, hp, hov⟩
      rcases rollDice_cases input draws with ⟨hA1, hA2⟩ | ⟨hB1, hB2, hB3⟩ |
        ⟨ds1', ds2', dsm', hp', hD0 | hD1 | hD2 | hD3 | hD4 | hD5⟩
      · rw [hA1, parse_of_empty_rest] at hp
        simp at hp
      · rw [hB2] at hp
        simp at hp
      all_goals
        have ht := Option.some.inj (hp.symm.trans hp')
        simp only [Prod.mk.injEq] at ht
        obtain ⟨rfl, rfl, rfl⟩ := ht
      · exact hD0.2
      · exact absurd hov hD1.1
      · exact absurd hov hD2.1
      · exact absurd hov hD3.1
      · exact absurd hov hD4.1
      · exact absurd hov hD5.1
  · constructor
    · intro hres
      rcases rollDice_cases input draws with ⟨hA1, hA2⟩ | ⟨hB1, hB2, hB3⟩ |
        ⟨ds1, ds2, dsm, hp, hD0 | hD1 | hD2 | hD3 | hD4 | hD5⟩
      · exact absurd (RollOutcome.reply.inj (hA2.symm.trans hres)) (by decide)
      · exact absurd (RollOutcome.reply.inj (hB3.symm.trans hres)) (by decide)
      · exact absurd (RollOutcome.reply.inj (hD0.2.symm.trans hres)) (by decide)
      · exact ⟨ds1, ds2, dsm, hp, hD1.1, hD1.2.1⟩
      · exact absurd (RollOutcome.reply.inj (hD2.2.2.2.symm.trans hres)) (by decide)
      · exact absurd (RollOutcome.reply.inj (hD3.2.2.2.2.2.symm.trans hres)) (by decide)
      · rcases hD4.2.2.2.2.2 with ⟨s, hs⟩ | hEx
        · exact absurd (hs.symm.trans hres) (emoji_head_ne countRangeMsg (by decide) s)
        · exact absurd (hEx.symm.trans hres) (by simp)
      · rcases hD5.2.2.2.2 with ⟨s, hs⟩ | hEx
        · exact absurd (hs.symm.trans hres) (emoji_head_ne countRangeMsg (by decide) s)
        · exact absurd (hEx.symm.trans hres) (by simp)
    · rintro ⟨ds1, ds2, dsm, hp, hov, hcond⟩
      rcases rollDice_cases input draws with ⟨hA1, hA2⟩ | ⟨hB1, hB2, hB3⟩ |
        ⟨ds1', ds2', dsm', hp', hD0 | hD1 | hD2 | hD3 | hD4 | hD5⟩
      · rw [hA1, parse_of_empty_rest] at hp
        simp at hp
      · rw [hB2] at hp
        simp at hp
      all_goals
        have ht := Option.some.inj (hp.symm.trans hp')
        simp only [Prod.mk.injEq] at ht
        obtain ⟨rfl, rfl, rfl⟩ := ht
      · exact absurd hD0.1 hov
      · exact hD1.2.2
      · exact absurd hcond (by
          obtain ⟨_, ⟨u1, u2⟩, _⟩ := hD2
          omega)
      · exact absurd hcond (by
          obtain ⟨_, ⟨u1, u2⟩, _⟩ := hD3
          omega)
      · exact absurd hcond (by
          obtain ⟨_, ⟨u1, u2⟩, _⟩ := hD4
          omega)
      · exact absurd hcond (by
          obtain ⟨_, ⟨u1, u2⟩, _⟩ := hD5
          omega)
  · constructor
    · intro hres
      rcases rollDice_cases input draws with ⟨hA1, hA2⟩ | ⟨hB1, hB2, hB3⟩ |
        ⟨ds1, ds2, dsm, hp, hD0 | hD1 | hD2 | hD3 | hD4 | hD5⟩
      · exact absurd (RollOutcome.reply.inj (hA2.symm.trans hres)) (by decide)
      · exact absurd (RollOutcome.reply.inj (hB3.symm.trans hres)) (by decide)
      · exact absurd (RollOutcome.reply.inj (hD0.2.symm.trans hres)) (by decide)
      · exact absurd (RollOutcome.reply.inj (hD1.2.2.symm.trans hres)) (by decide)
      · exact ⟨ds1, ds2, dsm, hp, hD2.1, hD2.2.1, hD2.2.2.1⟩
      · exact absurd (RollOutcome.reply.inj (hD3.2.2.2.2.2.symm.trans hres)) (by decide)
      · rcases hD4.2.2.2.2.2 with ⟨s, hs⟩ | hEx
        · exact absurd (hs.symm.trans hres) (emoji_head_ne facesRangeMsg (by decide) s)
        · exact absurd (hEx.symm.trans hres) (by simp)
      · rcases hD5.2.2.2.2 with ⟨s, hs⟩ | hEx
        · exact absurd (hs.symm.trans hres) (emoji_head_ne facesRangeMsg (by decide) s)
        · exact absurd (hEx.symm.trans hres) (by simp)
    · rintro ⟨ds1, ds2, dsm, hp, hov, hcnt, hcond⟩
      rcases rollDice_cases input draws with ⟨hA1, hA2⟩ | ⟨hB1, hB2, hB3⟩ |
        ⟨ds1', ds2', dsm', hp', hD0 | hD1 | hD2 | hD3 | hD4 | hD5⟩
      · rw [hA1, parse_of_empty_rest] at hp
        simp at hp
      · rw [hB2] at hp
        simp at hp
      all_goals
        have ht := Option.some.inj (hp.symm.trans hp')
        simp only [Prod.mk.injEq] at ht
        obtain ⟨rfl, rfl, rfl⟩ := ht
      · exact absurd hD0.1 hov
      · exact absurd hD1.2.1 (by omega)
      · exact hD2.2.2.2
      · exact absurd hcond (by
          obtain ⟨_, _, ⟨u1, u2⟩, _⟩ := hD3
          omega)
      · exact absurd hcond (by
          obtain ⟨_, _, ⟨u1, u2⟩, _⟩ := hD4
          omega)
      · exact absurd hcond (by
          obtain ⟨_, _, ⟨u1, u2⟩, _⟩ := hD5
          omega)
  · constructor
    · intro hres
      rcases rollDice_cases input draws with ⟨hA1, hA2⟩ | ⟨hB1, hB2, hB3⟩ |
        ⟨ds1, ds2, dsm, hp, hD0 | hD1 | hD2 | hD3 | hD4 | hD5⟩
      · exact absurd (RollOutcome.reply.inj (hA2.symm.trans hres)) (by decide)
      · exact absurd (RollOutcome.reply.inj (hB3.symm.trans hres)) (by decide)
      · exact absurd (RollOutcome.reply.inj (hD0.2.symm.trans hres)) (by decide)
      · exact absurd (RollOutcome.reply.inj (hD1.2.2.symm.trans hres)) (by decide)
      · exact absurd (RollOutcome.reply.inj (hD2.2.2.2.symm.trans hres)) (by decide)
      · exact ⟨ds1, ds2, dsm, hp, hD3.1, hD3.2.1, hD3.2.2.1, hD3.2.2.2.1,
          hD3.2.2.2.2.1⟩
      · rcases hD4.2.2.2.2.2 with ⟨s, hs⟩ | hEx
        · exact absurd (hs.symm.trans hres)
            (emoji_head_ne advUnsupportedMsg (by decide) s)
        · exact absurd (hEx.symm.trans hres) (by simp)
      · rcases hD5.2.2.2.2 with ⟨s, hs⟩ | hEx
        · exact absurd (hs.symm.trans hres)
            (emoji_head_ne advUnsupportedMsg (by decide) s)
        · exact absurd (hEx.symm.trans hres) (by simp)
    · rintro ⟨ds1, ds2, dsm, hp, hov, hcnt, hfc, hmode, h120⟩
      rcases rollDice_cases input draws with ⟨hA1, hA2⟩ | ⟨hB1, hB2, hB3⟩ |
        ⟨ds1', ds2', dsm', hp', hD0 | hD1 | hD2 | hD3 | hD4 | hD5⟩
      · rw [hA1, parse_of_empty_rest] at hp
        simp at hp
      · rw [hB2] at hp
        simp at hp
      all_goals
        have ht := Option.some.inj (hp.symm.trans hp')
        simp only [Prod.mk.injEq] at ht
        obtain ⟨rfl, rfl, rfl⟩ := ht
      · exact absurd hD0.1 hov
      · exact absurd hD1.2.1 (by omega)
      · exact absurd hD2.2.2.1 (by omega)
      · exact hD3.2.2.2.2.2
      · exact absurd hD4.2.2.2.2.1 h120
      · exact absurd hmode (by rw [hD5.2.2.2.1]; simp)

/-- Witness for C7: `/roll 0d6` is rejected with the count range-error
message. -/
theorem rollDiceCommand_rejection_policy_witness :
    rollDiceCommand ("/roll 0d6".data) [] = RollOutcome.reply countRangeMsg :=
  (rollDiceCommand_rejection_policy ("/roll 0d6".data) []).2.2.2.2.1.mpr
    ⟨("0".data), ("6".data), none, by decide, by decide, by decide⟩

set_option maxRecDepth 100000 in
/-- C7 counterexample: the original claim ties the faces range-error
message exactly to `faces ∉ [2, 1000]`; a 309-digit faces group is far
above 1000, yet the program replies with the invalid-expression message
of the `Number.isFinite` guard (checked before the range checks), not
with the range-error message. -/
theorem rejection_policy_overflow_counterexample :
    1000 < digitsToNat ceHugeDigits ∧
    rollDiceCommand (("/roll 1d".data) ++ ceHugeDigits) [] =
      RollOutcome.reply invalidExprMsg ∧
    invalidExprMsg ≠ facesRangeMsg :=
  ⟨by decide, by decide, by decide⟩

theorem build_eq_spec (c : CasusProfile) :
    buildCasusProfileSystemMessage (some c) =
      if profileLinesSpec c = [] then none
      else some ⟨("system".data),
        ("Contexte de partie:\n".data) ++ joinNL (profileLinesSpec c)⟩ := by
  have hlines :
      ((if c.mode.map jsTrim = some ("mj".data) then [modeMjLine] else [])
        ++ (if c.mode.map jsTrim = some ("joueur".data) then [modeJoueurLine] else [])
        ++ (match c.univers.map jsTrim with
            | some u => if u ≠ [] then [("Univers/ton: ".data) ++ u] else []
            | none => [])
        ++ (match c.style.map jsTrim with
            | some stl => if stl ≠ [] then [("Contraintes de style: ".data) ++ stl] else []
            | none => [])) = profileLinesSpec c := by
    unfold profileLinesSpec
    cases hmo : c.mode.map jsTrim with
    | none =>
      cases hun : c.univers.map jsTrim <;> cases hst : c.style.map jsTrim <;>
        simp [ite_not]
    | some md =>
      by_cases h1 : md = ("mj".data)
      · subst h1
        cases hun : c.univers.map jsTrim <;> cases hst : c.style.map jsTrim <;>
          simp [ite_not, show ¬(("mj".data : List Char) = ("joueur".data)) from by decide]
      · by_cases h2 : md = ("joueur".data)
        · subst h2
          cases hun : c.univers.map jsTrim <;> cases hst : c.style.map jsTrim <;>
            simp [ite_not, show ¬(("joueur".data : List Char) = ("mj".data)) from by decide]
        · cases hun : c.univers.map jsTrim <;> cases hst : c.style.map jsTrim <;>
            simp [ite_not, h1, h2]
  unfold buildCasusProfileSystemMessage
  dsimp only
  rw [hlines]

theorem profileLinesSpec_nil_iff (c : CasusProfile)
    (hm : c.mode = none ∨ c.mode = some ("mj".data) ∨ c.mode = some ("joueur".data)) :
    profileLinesSpec c = [] ↔
      (c.mode = none ∧ (∀ u, c.univers = some u → jsTrim u = []) ∧
        (∀ s, c.style = some s → jsTrim s = [])) := by
  unfold profileLinesSpec
  rcases hm with hmo | hmo | hmo <;>
    rw [hmo] <;> cases hun : c.univers <;> cases hst : c.style <;>
      simp [hmo, hun, hst, show jsTrim ("mj".data) = ("mj".data) from by decide,
        show jsTrim ("joueur".data) = ("joueur".data) from by decide,
        show ¬(("joueur".data : List Char) = ("mj".data)) from by decide]

/-- C9: `buildCasusProfileSystemMessage` returns `none` exactly when the
profile is absent or none of mode/univers/style yields a line after
trimming, and otherwise returns a single system-role message whose body
is the fixed header followed by exactly the lines for the provided
non-empty fields in the fixed order mode, univers, style
(`profileLinesSpec`). -/
theorem casus_profile_composer (casus : Option CasusProfile)
    (hmode : ∀ c : CasusProfile, casus = some c →
      c.mode = none ∨ c.mode = some ("mj".data) ∨ c.mode = some ("joueur".data)) :
    (buildCasusProfileSystemMessage casus = none ↔
      (casus = none ∨ ∃ c, casus = some c ∧ c.mode = none ∧
        (∀ u, c.univers = some u → jsTrim u = []) ∧
        (∀ s, c.style = some s → jsTrim s = [])))
    ∧ (∀ c m, casus = some c → buildCasusProfileSystemMessage casus = some m →
        m.role = ("system".data) ∧
        m.content = ("Contexte de partie:\n".data) ++ joinNL (profileLinesSpec c)) := by
  cases casus with
  | none =>
    refine ⟨?_, ?_⟩
    · simp [buildCasusProfileSystemMessage]
    · intro c m hc _
      exact absurd hc (by simp)
  | some c =>
    have hm := hmode c rfl
    refine ⟨?_, ?_⟩
    · rw [build_eq_spec c]
      by_cases hL : profileLinesSpec c = []
      · rw [if_pos hL]
        constructor
        · intro _
          exact Or.inr ⟨c, rfl, (profileLinesSpec_nil_iff c hm).mp hL⟩
        · intro _
          rfl
      · rw [if_neg hL]
        constructor
        · intro h
          exact absurd h (by simp)
        · rintro (h | ⟨c', hc', h1, h2, h3⟩)
          · exact absurd h (by simp)
          · obtain rfl := Option.some.inj hc'
            exact absurd ((profileLinesSpec_nil_iff _ hm).mpr ⟨h1, h2, h3⟩) hL
    · intro c' m hc' hm2
      obtain rfl := Option.some.inj hc'
      rw [build_eq_spec] at hm2
      by_cases hL : profileLinesSpec c = []
      · rw [if_pos hL] at hm2
        cases hm2
      · rw [if_neg hL] at hm2
        obtain rfl := Option.some.inj hm2
        exact ⟨rfl, rfl⟩

/-- Witness for C9: a profile with no mode and a whitespace-only universe
yields no profile message. -/
theorem casus_profile_composer_witness :
    buildCasusProfileSystemMessage (some ⟨none, some ("  ".data), none⟩) = none :=
  (casus_profile_composer (some ⟨none, some ("  ".data), none⟩)
      (by intro c hc; obtain rfl := Option.some.inj hc; exact Or.inl rfl)).1.mpr
    (Or.inr ⟨⟨none, some ("  ".data), none⟩, rfl, rfl,
      (by intro u hu; obtain rfl := Option.some.inj hu; decide),
      (by intro s hs; cases hs)⟩)

/-- C3 counterexample: with an incoming list `[user, marker-system]` that
already contains the Casus marker, the base persona is (correctly) not
re-inserted, but the non-null profile message is inserted at index 0 —
before the user message — and is NOT immediately after the marker-bearing
base persona system message: the pair `[marker, profile]` is not an infix
of the composed list. -/
theorem persona_placement_counterexample :
    hasCasusSystem [ceUserMsg, ceMarkerMsg] = true ∧
    buildCasusProfileSystemMessage ceCasus = some ceProfileMsg ∧
    composeMessages [ceUserMsg, ceMarkerMsg] ceCasus =
      [ceProfileMsg, ceUserMsg, ceMarkerMsg] ∧
    ¬ [ceMarkerMsg, ceProfileMsg] <:+: [ceProfileMsg, ceUserMsg, ceMarkerMsg] :=
  ⟨by decide, by decide, by decide, by decide⟩

/-- C3 (amended): when no incoming message carries the Casus marker the
base persona is inserted at position 0 and the non-null profile message
immediately after it; when the marker is already present nothing is
inserted for the base persona, and the non-null profile message is
inserted at index 0 if the list starts with a non-system message and at
index 1 otherwise (the code inserts at `min(1, firstNonSystemIndex)`,
with `-1` mapped to 1). -/
theorem persona_placement_amended (messages : List ChatMessage)
    (casus : Option CasusProfile) :
    (hasCasusSystem messages = false →
      composeMessages messages casus =
        match buildCasusProfileSystemMessage casus with
        | none => baseSystemMessage :: messages
        | some p => baseSystemMessage :: p :: messages)
    ∧ (hasCasusSystem messages = true →
      composeMessages messages casus =
        match buildCasusProfileSystemMessage casus with
        | none => messages
        | some p =>
          match messages.findIdx? (fun m => !(m.role == ("system".data))) with
          | some 0 => p :: messages
          | _ => List.insertIdx 1 p messages) := by
  constructor
  · intro hno
    unfold composeMessages
    rw [if_neg (by rw [hno]; exact Bool.false_ne_true)]
    cases hb : buildCasusProfileSystemMessage casus with
    | none => rfl
    | some p =>
      dsimp only
      have hstep : List.findIdx? (fun m => !(m.role == ("system".data)))
          (baseSystemMessage :: messages) =
          (List.findIdx? (fun m => !(m.role == ("system".data))) messages).map
            (· + 1) := by
        rw [show List.findIdx? (fun m => !(m.role == ("system".data)))
            (baseSystemMessage :: messages) =
            if (!(baseSystemMessage.role == ("system".data))) = true then some 0
            else List.findIdx? (fun m => !(m.role == ("system".data))) messages 1
          from rfl]
        rw [if_neg (by decide)]
        exact List.findIdx?_succ
      rw [hstep]
      cases hf : List.findIdx? (fun m => !(m.role == ("system".data))) messages with
      | none =>
        dsimp only [Option.map]
        rw [show Min.min (1 : Int) (-1) = -1 from by decide, if_pos rfl]
        rfl
      | some i =>
        dsimp only [Option.map]
        have hmin : Min.min (1 : Int) ((i + 1 : Nat) : Int) = 1 := by omega
        rw [hmin, if_neg (by decide : ¬(1 : Int) = -1)]
        rfl
  · intro hyes
    unfold composeMessages
    rw [if_pos hyes]
    cases hb : buildCasusProfileSystemMessage casus with
    | none => rfl
    | some p =>
      dsimp only
      cases hf : List.findIdx? (fun m => !(m.role == ("system".data))) messages with
      | none =>
        dsimp only
        rw [show Min.min (1 : Int) (-1) = -1 from by decide, if_pos rfl]
        rfl
      | some i =>
        cases i with
        | zero =>
          dsimp only
          rw [show Min.min (1 : Int) ((0 : Nat) : Int) = 0 from by decide]
          rw [if_neg (by decide : ¬(0 : Int) = -1)]
          rfl
        | succ j =>
          dsimp only
          have hmin : Min.min (1 : Int) ((j + 1 : Nat) : Int) = 1 := by omega
          rw [hmin, if_neg (by decide : ¬(1 : Int) = -1)]
          rfl

/-- Witness for C3 (amended): on `[user]` with no marker present, the
composer prepends the base persona and puts the profile message right
after it. -/
theorem persona_placement_amended_witness :
    composeMessages [ceUserMsg] ceCasus =
      [baseSystemMessage, ceProfileMsg, ceUserMsg] := by
  have h := (persona_placement_amended [ceUserMsg] ceCasus).1 (by decide)
  rw [show buildCasusProfileSystemMessage ceCasus = some ceProfileMsg from by decide]
    at h
  exact h

theorem randIntInclusive_1_20_ok (x : Nat) (rest : List Nat)
    (hx : x % uint32Mod < uint32Mod - 1000) :
    randIntInclusive 1 20 (x :: rest) =
      RandResult.ok (1 + ((x % uint32Mod % 20 : Nat) : Int)) rest := by
  have h20 := rand_one_faces 20 (by omega) (x :: rest)
  have hc : ((20 : Nat) : Int) = (20 : Int) := by norm_num
  rw [hc] at h20
  rw [h20]
  exact rejectionLoop_cons_accept 1 20 x rest
    (Nat.lt_of_lt_of_le hx (acceptLimit_ge 20 (by omega) (by omega)))

theorem rollDice_reply_of_entropy (input : List Char) (draws : List Nat)
    (hlen : 50 ≤ draws.length)
    (hacc : ∀ x ∈ draws, x % uint32Mod < uint32Mod - 1000) :
    ∃ s, rollDiceCommand input draws = RollOutcome.reply s ∧ s ≠ [] := by
  by_cases hrest : jsTrim (stripRollCmd input) = []
  · refine ⟨usageMsg, ?_, by decide⟩
    unfold rollDiceCommand
    rw [if_pos hrest]
  · cases hparse : parseDiceExpr ((splitWs (jsTrim (stripRollCmd input))).headD []) with
    | none =>
      refine ⟨formatErrMsg, ?_, by decide⟩
      unfold rollDiceCommand
      rw [if_neg hrest]
      dsimp only
      rw [hparse]
    | some trip =>
      obtain ⟨ds1, ds2, dsm⟩ := trip
      by_cases hov : jsOverflow ≤ rollCountOf ds1 ∨ jsOverflow ≤ digitsToNat ds2 ∨
          jsOverflow ≤ (rollModOf dsm).natAbs
      · refine ⟨invalidExprMsg, ?_, by decide⟩
        unfold rollDiceCommand
        rw [if_neg hrest]
        dsimp only
        rw [hparse]
        dsimp only
        rw [if_pos hov]
      by_cases hcount : rollCountOf ds1 < 1 ∨ 50 < rollCountOf ds1
      · refine ⟨countRangeMsg, ?_, by decide⟩
        unfold rollDiceCommand
        rw [if_neg hrest]
        dsimp only
        rw [hparse]
        dsimp only
        rw [if_neg hov]
        rw [if_pos hcount]
      · by_cases hfaces : digitsToNat ds2 < 2 ∨ 1000 < digitsToNat ds2
        · refine ⟨facesRangeMsg, ?_, by decide⟩
          unfold rollDiceCommand
          rw [if_neg hrest]
          dsimp only
          rw [hparse]
          dsimp only
          rw [if_neg hov]
          rw [if_neg hcount, if_pos hfaces]
        · by_cases hunsupp : ((containsWord ("adv".data) (lowerAll (List.intercalate [' ']
              ((splitWs (jsTrim (stripRollCmd input))).drop 1))) ||
             containsWord ("dis".data) (lowerAll (List.intercalate [' ']
              ((splitWs (jsTrim (stripRollCmd input))).drop 1)))) &&
             !(rollCountOf ds1 == 1 && digitsToNat ds2 == 20)) = true
          · refine ⟨advUnsupportedMsg, ?_, by decide⟩
            unfold rollDiceCommand
            rw [if_neg hrest]
            dsimp only
            rw [hparse]
            dsimp only
            rw [if_neg hov]
            rw [if_neg hcount, if_neg hfaces, if_pos hunsupp]
          · by_cases hmode : (containsWord ("adv".data) (lowerAll (List.intercalate [' ']
                ((splitWs (jsTrim (stripRollCmd input))).drop 1))) ||
               containsWord ("dis".data) (lowerAll (List.intercalate [' ']
                ((splitWs (jsTrim (stripRollCmd input))).drop 1)))) = true
            · -- advantage/disadvantage executed: two accepted d20 draws
              obtain ⟨x, r, rfl⟩ : ∃ x r, draws = x :: r := by
                cases draws with
                | nil => simp at hlen
                | cons a b => exact ⟨a, b, rfl⟩
              obtain ⟨y, r2, rfl⟩ : ∃ y r2, r = y :: r2 := by
                cases r with
                | nil => simp at hlen
                | cons a b => exact ⟨a, b, rfl⟩
              have hx := hacc x (List.mem_cons_self x (y :: r2))
              have hy := hacc y (by simp)
              have hmain : ∃ s, rollDiceCommand input (x :: y :: r2) =
                  RollOutcome.reply ('🎲' :: s) := by
                unfold rollDiceCommand
                rw [if_neg hrest]
                dsimp only
                rw [hparse]
                dsimp only
                rw [if_neg hov]
                rw [if_neg hcount, if_neg hfaces, if_neg hunsupp, if_pos hmode]
                rw [randIntInclusive_1_20_ok x (y :: r2) hx]
                dsimp only
                rw [randIntInclusive_1_20_ok y r2 hy]
                exact ⟨_, rfl⟩
              obtain ⟨s, hs⟩ := hmain
              exact ⟨'🎲' :: s, hs, List.cons_ne_nil _ _⟩
            · -- normal roll: rollN succeeds on 50 accepted draws
              have h2f : 2 ≤ digitsToNat ds2 := by omega
              have h1000f : digitsToNat ds2 ≤ 1000 := by omega
              obtain ⟨rolls, restD, hroll⟩ :=
                rollN_ok_of_accept (digitsToNat ds2) h2f h1000f (rollCountOf ds1) draws
                  (by omega) hacc
              have hmain : ∃ s, rollDiceCommand input draws =
                  RollOutcome.reply ('🎲' :: s) := by
                unfold rollDiceCommand
                rw [if_neg hrest]
                dsimp only
                rw [hparse]
                dsimp only
                rw [if_neg hov]
                rw [if_neg hcount, if_neg hfaces, if_neg hunsupp]
                rw [if_neg (show ¬((containsWord ("adv".data) (lowerAll (List.intercalate [' ']
                    ((splitWs (jsTrim (stripRollCmd input))).drop 1))) ||
                   containsWord ("dis".data) (lowerAll (List.intercalate [' ']
                    ((splitWs (jsTrim (stripRollCmd input))).drop 1)))) = true) from hmode)]
                rw [hroll]
                exact ⟨_, rfl⟩
              obtain ⟨s, hs⟩ := hmain
              exact ⟨'🎲' :: s, hs, List.cons_ne_nil _ _⟩

/-- C10: command interception inspects only the most recent user-role
message — with enough non-rejected randomness available (a modelling
hypothesis standing in for the inexhaustible `crypto.getRandomValues`),
`handleChatRequest` answers locally (`chatIntercepts` is true) exactly
when the last user-role message exists and its trimmed content is
`/help` case-insensitively or starts with `/roll` case-insensitively;
commands in earlier messages are ignored and a request without any
user-role message is never intercepted. -/
theorem chat_interception_last_user (messages : List ChatMessage) (draws : List Nat)
    (hlen : 50 ≤ draws.length)
    (hacc : ∀ x ∈ draws, x % uint32Mod < uint32Mod - 1000) :
    chatIntercepts messages draws = true ↔
      ∃ m, lastUserMessage messages = some m ∧ isCommandContent m.content = true := by
  unfold chatIntercepts commandResponseOf
  cases hlu : lastUserMessage messages with
  | none => simp
  | some m =>
    dsimp only
    constructor
    · intro h
      refine ⟨m, rfl, ?_⟩
      by_contra hnc
      rw [Bool.not_eq_true] at hnc
      unfold isCommandContent at hnc
      rw [Bool.or_eq_false_iff] at hnc
      obtain ⟨h1, h2⟩ := hnc
      have hnone : handleCommand m.content draws = none := by
        unfold handleCommand
        rw [if_neg (by intro he; rw [he] at h1; simp at h1)]
        rw [if_neg (by intro hx; rw [hx] at h2; exact absurd h2 (by decide))]
      rw [hnone] at h
      simp at h
    · rintro ⟨m2, hm2, hcmd⟩
      obtain rfl := Option.some.inj hm2
      unfold handleCommand
      by_cases hhelp : lowerAll (jsTrim m.content) = ("/help".data)
      · rw [if_pos hhelp]
        dsimp only
        decide
      · rw [if_neg hhelp]
        by_cases hroll : (("/roll".data).isPrefixOf (lowerAll (jsTrim m.content))) = true
        · rw [if_pos hroll]
          obtain ⟨s, hs, hne⟩ :=
            rollDice_reply_of_entropy (jsTrim m.content) draws hlen hacc
          rw [hs]
          dsimp only
          cases s with
          | nil => exact absurd rfl hne
          | cons a t => rfl
        · exfalso
          unfold isCommandContent at hcmd
          rw [Bool.or_eq_true] at hcmd
          rcases hcmd with h1 | h2
          · exact hhelp (eq_of_beq h1)
          · exact hroll h2

/-- Witness for C10: a single user message ` /RoLl d20` is intercepted
when fed fifty zero draws. -/
theorem chat_interception_last_user_witness :
    chatIntercepts [⟨("user".data), (" /RoLl d20".data)⟩] (List.replicate 50 0) = true :=
  (chat_interception_last_user [⟨("user".data), (" /RoLl d20".data)⟩]
      (List.replicate 50 0) (by decide) (by decide)).mpr
    ⟨⟨("user".data), (" /RoLl d20".data)⟩, by decide, by decide⟩
